/-
Verification of the TARDIS code-comparison exporter (tardis_code_compare.py).

Shallow embedding conventions:
* Machine floats are modelled as exact rationals (ℚ); numpy/pandas operations
  (np.interp, np.linspace, np.diff, min/max reductions, DataFrame transposition,
  DataFrame.insert, to_csv) are translated element-wise over Lean lists.
* `Simulation` holds the per-simulation quantities already converted to the
  units the source converts them to (days, km/s), since the unit library is an
  external collaborator.
* Python's `round` (banker's rounding) and C's `%.6E` printf rounding are both
  modelled by `roundHalfEven`.
* Fallible Python code (KeyError, TypeError, ValueError paths) is modelled with
  `Except String`/`Option`.
-/
import Mathlib

set_option maxRecDepth 100000

/- The Batteries rational operations are `@[irreducible]`; restore default
reducibility so that concrete witnesses can be checked by kernel reduction. -/
unseal Rat.add Rat.mul Rat.sub Rat.inv Rat.ofScientific

/-! ## Generic list/number helpers used by the embedding -/

/-- The `.min()` reduction of a numpy array (junk value 0 on the empty array, on
which numpy raises; all uses are guarded by well-formedness hypotheses). -/
def listMin : List ℚ → ℚ
  | [] => 0
  | x :: xs => xs.foldl min x

/-- The `.max()` reduction of a numpy array. -/
def listMax : List ℚ → ℚ
  | [] => 0
  | x :: xs => xs.foldl max x

/-- The `np.diff`: successive differences of an array. -/
def diffsOf (l : List ℚ) : List ℚ := (l.zip l.tail).map (fun p => p.2 - p.1)

/-- Boolean check that every adjacent pair of a list satisfies `p`. -/
def pairsAllB (p : ℚ → ℚ → Bool) (l : List ℚ) : Bool :=
  (l.zip l.tail).all (fun q => p q.1 q.2)

/-- Boolean test for a strictly increasing array. -/
def strictlyIncreasingB (l : List ℚ) : Bool :=
  pairsAllB (fun a b => decide (a < b)) l

/-- Boolean test that every successive spacing of `l` is at most `d`. -/
def spacingLeB (d : ℚ) (l : List ℚ) : Bool :=
  pairsAllB (fun a b => decide (b - a ≤ d)) l

/-- Round to nearest, ties to even: Python's built-in `round` and the rounding
used by `printf`-style `%.6E` formatting. -/
def roundHalfEven (q : ℚ) : ℤ :=
  let f := ⌊q⌋
  let r := q - f
  if r < 1/2 then f
  else if 1/2 < r then f + 1
  else if f % 2 = 0 then f else f + 1

/-- The `np.linspace a b n`: `n` evenly spaced samples from `a` to `b` inclusive. -/
def linspace (a b : ℚ) (n : ℕ) : List ℚ :=
  (List.range n).map (fun i : ℕ => a + (i : ℚ) * ((b - a) / ((n : ℚ) - 1)))

/-! ## VelocityInterpolatedOutputFile.get_velocity_grid_from_simulations -/

/-- The `min_delta_v = np.min([np.diff(v_middle).min() for v_middle in v_middles])` -/
def minDeltaV (v_middles : List (List ℚ)) : ℚ :=
  listMin (v_middles.map (fun v => listMin (diffsOf v)))

/-- The `v_min = np.min([v_middle.min() for v_middle in v_middles])` -/
def vMinAll (v_middles : List (List ℚ)) : ℚ := listMin (v_middles.map listMin)

/-- The `v_max = np.max([v_middle.max() for v_middle in v_middles])` -/
def vMaxAll (v_middles : List (List ℚ)) : ℚ := listMax (v_middles.map listMax)

/-- The `N_shells = round((v_max - v_min) / min_delta_v) + 2` (a Python int). -/
def nShellsInt (v_middles : List (List ℚ)) : ℤ :=
  roundHalfEven ((vMaxAll v_middles - vMinAll v_middles) / minDeltaV v_middles) + 2

/-- The `np.linspace(v_min, v_max, N_shells)`: the shared velocity grid. -/
def get_velocity_grid_from_simulations (v_middles : List (List ℚ)) : List ℚ :=
  linspace (vMinAll v_middles) (vMaxAll v_middles) (nShellsInt v_middles).toNat

/-- Well-formedness of the velocity-midpoint inputs assumed by the spec: a
non-empty collection of strictly increasing arrays of length at least two. -/
def velocityInputsWF (arrs : List (List ℚ)) : Bool :=
  !arrs.isEmpty && arrs.all (fun a => decide (2 ≤ a.length) && strictlyIncreasingB a)

/-! ## np.interp (linear interpolation with left/right fill values) -/

/-- Piecewise-linear walk over the knot list `(x_i, f_i)`: on the segment
`[x_i, x_{i+1}]` the value is `f_i + (f_{i+1} - f_i) * (x - x_i) / (x_{i+1} - x_i)`. -/
def segWalk (x : ℚ) : List (ℚ × ℚ) → ℚ
  | [] => 0
  | [(_, f0)] => f0
  | (x0, f0) :: (x1, f1) :: rest =>
      if x ≤ x1 then f0 + (f1 - f0) * (x - x0) / (x1 - x0)
      else segWalk x ((x1, f1) :: rest)

/-- The `np.interp(x, xp, fp, left, right)` for a single query point: `left` for
`x < xp[0]`, `right` for `x > xp[-1]`, linear interpolation in between.
(numpy raises on empty `xp`; the junk value 0 there is guarded by hypotheses.) -/
def npInterp (x : ℚ) (xp fp : List ℚ) (lft rgt : ℚ) : ℚ :=
  match xp, fp with
  | x0 :: xt, _ :: _ =>
      if x < x0 then lft
      else if xt.getLastD x0 < x then rgt
      else segWalk x (List.zip (x0 :: xt) fp)
  | _, _ => 0

/-- The fill value `1e-99` of the source, as the exact rational it denotes. -/
def sentinel : ℚ := 1 / 10 ^ 99

/-- One line of `get_data_table`: `np.interp(v_interp, v, interpolation_values,
left=1e-99, right=1e-99)`, mapped over the shared grid. -/
def interp_onto_grid (v_interp v vals : List ℚ) : List ℚ :=
  v_interp.map (fun x => npInterp x v vals sentinel sentinel)

/-- The `pd.DataFrame(cols).T` for equal-length columns: row `i` collects entry `i`
of every column. -/
def colsToRows (cols : List (List ℚ)) : List (List ℚ) :=
  match cols with
  | [] => []
  | c0 :: _ => (List.range c0.length).map (fun i => cols.map (fun c => c.getD i 0))

/-! ## Decimal scientific formatting: the `float_format='%.6E'` of `to_csv` -/

/-- Base-10 digits, least significant first, via explicit fuel (structural
recursion so that the kernel can evaluate it). -/
def digitsAux : ℕ → ℕ → List ℕ
  | 0, _ => []
  | _ + 1, 0 => []
  | fuel + 1, n + 1 => ((n + 1) % 10) :: digitsAux fuel ((n + 1) / 10)

/-- Base-10 digits of `n`, least significant first (`[]` for 0). -/
def digits10 (n : ℕ) : List ℕ := digitsAux n n

/-- Value of a little-endian digit list. -/
def ofDigitsLE : List ℕ → ℕ
  | [] => 0
  | d :: t => d + 10 * ofDigitsLE t

/-- For `a ≥ 1`: the decimal exponent (how often `a` can be divided by 10 while
staying at least 1), by fuel recursion. -/
def expDown : ℕ → ℚ → ℕ
  | 0, _ => 0
  | fuel + 1, a => if a < 10 then 0 else expDown fuel (a / 10) + 1

/-- For `0 < a < 1`: the positive count `k` with `10^(-k) ≤ a < 10^(-k+1)`. -/
def expUp : ℕ → ℚ → ℕ
  | 0, _ => 1
  | fuel + 1, a => if 1 ≤ a * 10 then 1 else expUp fuel (a * 10) + 1

/-- Decimal exponent of a positive rational: the unique `e` with
`10^e ≤ a < 10^(e+1)`. -/
def qExp10 (a : ℚ) : ℤ :=
  if 1 ≤ a then (expDown a.num.toNat a : ℤ) else -(expUp a.den a : ℤ)

/-- Mantissa (as an integer in `[10^6, 10^7)`) and exponent of the `%.6E`
representation of `q ≠ 0` (sign handled by the callers). -/
def e6parts (q : ℚ) : ℤ × ℤ :=
  let a := |q|
  let e := qExp10 a
  let m := roundHalfEven (a / (10 : ℚ) ^ (e - 6))
  if m = 10 ^ 7 then (10 ^ 6, e + 1) else (m, e)

/-- Decimal digit characters of `n`, most significant first (`[]` for 0). -/
def digitChars (n : ℕ) : List Char := ((digits10 n).reverse).map Nat.digitChar

/-- Decimal digit characters of `n`, most significant first, `"0"` for 0. -/
def natChars (n : ℕ) : List Char := if n = 0 then ['0'] else digitChars n

/-- The `%.6E` rendering of `q` as a character list, e.g. `-3.333333E-01`:
sign, 7-digit mantissa with the decimal point after the first digit, `E`,
exponent sign and a (at least two digit) zero-padded exponent. -/
def formatE6chars (q : ℚ) : List Char :=
  if q = 0 then ['0', '.', '0', '0', '0', '0', '0', '0', 'E', '+', '0', '0']
  else
    let p := e6parts q
    let sgn : List Char := if q < 0 then ['-'] else []
    let mant : List Char :=
      match digitChars p.1.toNat with
      | [] => []
      | d :: rest => d :: '.' :: rest
    let esign : List Char := if p.2 < 0 then ['-'] else ['+']
    let eabs := p.2.natAbs
    let edigits : List Char := if eabs < 10 then '0' :: natChars eabs else natChars eabs
    sgn ++ mant ++ 'E' :: (esign ++ edigits)

/-- The `%.6E` rendering of `q` as a string. -/
def formatE6 (q : ℚ) : String := String.mk (formatE6chars q)

/-- The exact rational value denoted by the `%.6E` rendering of `q`. -/
def E6round (q : ℚ) : ℚ :=
  if q = 0 then 0
  else
    let p := e6parts q
    let mag := ((p.1 : ℚ) / 10 ^ 6) * (10 : ℚ) ^ p.2
    if q < 0 then -mag else mag

/-! ## Parsing the written text back (the round-trip direction) -/

/-- Numeric value of a decimal digit character. -/
def charDigit (c : Char) : ℕ := c.toNat - 48

/-- Value of a most-significant-first digit character list. -/
def numOfChars (cs : List Char) : ℕ := cs.foldl (fun a c => a * 10 + charDigit c) 0

/-- Split a character list at the first `E`. -/
def splitAtE : List Char → List Char × List Char
  | [] => ([], [])
  | c :: rest =>
      if c = 'E' then ([], rest)
      else
        let p := splitAtE rest
        (c :: p.1, p.2)

/-- Parse an unsigned decimal mantissa with at most one decimal point. -/
def parseUMant (cs : List Char) : ℚ :=
  let ds := cs.filter (fun c => decide (c ≠ '.'))
  let frac := (cs.dropWhile (fun c => decide (c ≠ '.'))).length - 1
  (numOfChars ds : ℚ) / 10 ^ frac

/-- Parse a signed decimal mantissa. -/
def parseMantissaChars : List Char → ℚ
  | [] => 0
  | c :: rest => if c = '-' then -(parseUMant rest) else parseUMant (c :: rest)

/-- Parse a signed integer exponent. -/
def parseExpChars : List Char → ℤ
  | [] => 0
  | c :: rest =>
      if c = '-' then -(numOfChars rest : ℤ)
      else if c = '+' then (numOfChars rest : ℤ)
      else (numOfChars (c :: rest) : ℤ)

/-- Number of digit characters in the mantissa part (before `E`) of a formatted
value: its count of significant digits. -/
def mantissaDigitCount (cs : List Char) : ℕ :=
  ((splitAtE cs).1.filter (fun c => c.isDigit)).length

/-- Parse a `%.6E`-formatted value back into the rational it denotes. -/
def parseE6chars (cs : List Char) : ℚ :=
  let p := splitAtE cs
  parseMantissaChars p.1 * (10 : ℚ) ^ parseExpChars p.2

/-- Parse a `%.6E`-formatted string. -/
def parseE6 (s : String) : ℚ := parseE6chars s.toList

/-- Join cells with single spaces (the `sep=' '` of `to_csv`). -/
def joinSpace : List (List Char) → List Char
  | [] => []
  | [c] => c
  | c :: c2 :: rest => c ++ ' ' :: joinSpace (c2 :: rest)

/-- Split a character list on spaces (whitespace splitting of a parser). -/
def splitOnSpacesAux : List Char → List Char → List (List Char)
  | cur, [] => [cur.reverse]
  | cur, c :: rest =>
      if c = ' ' then cur.reverse :: splitOnSpacesAux [] rest
      else splitOnSpacesAux (c :: cur) rest

/-- Split a character list on spaces. -/
def splitOnSpaces (cs : List Char) : List (List Char) := splitOnSpacesAux [] cs

/-- One CSV body line: the row's values `%.6E`-formatted, space-separated,
without index or header (`to_csv(f, index=False, float_format='%.6E', sep=' ',
header=False)`). -/
def csvRowLine (row : List ℚ) : String := String.mk (joinSpace (row.map formatE6chars))

/-! ## The exporter hierarchy -/

/-- A completed simulation result, holding the quantities the exporters read
(already converted to days and km/s as the source does). -/
structure Simulation where
  time_explosion_days : ℚ
  v_middle : List ℚ
  t_electrons : List ℚ
  electron_densities : List ℚ
  wavelength : List ℚ
  luminosity_density_lambda : List ℚ

/-- The five leaf exporter types of the hierarchy. -/
inductive ExporterType
  | spectra
  | tgas
  | eden
  | ionfrac
  | phys
deriving DecidableEq

/-- The `first_column_name`: `'WAVE'` for the spectral exporter, otherwise the base
class value `'VEL'`. -/
def first_column_name : ExporterType → String
  | .spectra => "WAVE"
  | _ => "VEL"

/-- The `column_description` class attributes (the ionfrac value is the prefix its
constructor extends with per-stage names). -/
def column_description : ExporterType → String
  | .spectra => "#wavelength[Ang] flux_t0[erg/s/Ang] flux_t1[erg/s/Ang] ... flux_tn[erg/s/Ang]"
  | .tgas => "#vel_mid[km/s] Tgas_t0[K] Tgas_t1[K] ... Tgas_tn[K]"
  | .eden => "#vel_mid[km/s] ne_t0[/cm^3] ne_t1[/cm^3] … ne_tn[/cm^3]"
  | .ionfrac => "#vel_mid[km/s]"
  | .phys => "#vel_mid[km/s] temp[K] rho[gcc] ne[/cm^3] natom[/cm^3]"

/-- The `times_str`: `' '.join([str(time) for time in self.times])` (Python `str`
of a float is abstracted by the numeral rendering of the rational). -/
def times_str (times : List ℚ) : String := String.intercalate " " (times.map toString)

/-- The `CodeComparisonOutputFile.write`, as the list of lines written to the file:
`#NTIMES`, `#N<FIRSTCOL>`, `#TIMES[d]`, the column-description comment, then
the CSV body rows in table order. -/
def base_write (t : ExporterType) (times : List ℚ) (data_table : List (List ℚ)) :
    List String :=
  ("#NTIMES: " ++ toString times.length) ::
  ("#N" ++ first_column_name t ++ ": " ++ toString data_table.length) ::
  ("#TIMES[d]: " ++ times_str times) ::
  column_description t ::
  data_table.map csvRowLine

/-- The `get_times_from_simulations`: explosion time of each simulation in days. -/
def get_times_from_simulations (sims : List Simulation) : List ℚ :=
  sims.map (·.time_explosion_days)

/-- The `get_interpolation_values`: overridden by tgas and eden; the base
`VelocityInterpolatedOutputFile` method is `pass` (returns `None`), which is
what ionfrac and phys inherit. -/
def get_interpolation_values : ExporterType → Simulation → Option (List ℚ)
  | .tgas, sim => some sim.t_electrons
  | .eden, sim => some sim.electron_densities
  | _, _ => none

/-- The `get_data_table`: the spectra override builds `pd.DataFrame(spectra).T`;
the velocity-interpolated version interpolates each simulation's values onto
the shared grid (failing, as the Python does, on degenerate velocity arrays,
a negative sample count, or `None`/mismatched interpolation values). -/
def get_data_table_e (t : ExporterType) (sims : List Simulation) :
    Except String (List (List ℚ)) :=
  match t with
  | .spectra => .ok (colsToRows (sims.map (·.luminosity_density_lambda)))
  | _ =>
      if sims.isEmpty || sims.any (fun s => decide (s.v_middle.length < 2)) then
        .error "ValueError: zero-size array to reduction operation"
      else if nShellsInt (sims.map (·.v_middle)) < 0 then
        .error "ValueError: number of samples must be nonnegative"
      else if sims.all (fun s =>
          (get_interpolation_values t s).isSome &&
          ((get_interpolation_values t s).getD []).length == s.v_middle.length) then
        .ok (colsToRows (sims.map (fun s =>
          interp_onto_grid (get_velocity_grid_from_simulations (sims.map (·.v_middle)))
            s.v_middle ((get_interpolation_values t s).getD []))))
      else .error "TypeError: np.interp received invalid interpolation values"

/-- The `get_data_first_column`: the first simulation's wavelength array for
spectra (IndexError on an empty list), the shared velocity grid otherwise. -/
def get_data_first_column_e (t : ExporterType) (sims : List Simulation) :
    Except String (Option (List ℚ)) :=
  match t with
  | .spectra =>
      match sims with
      | [] => .error "IndexError: list index out of range"
      | s :: _ => .ok (some s.wavelength)
  | _ => .ok (some (get_velocity_grid_from_simulations (sims.map (·.v_middle))))

/-- The `DataFrame.insert(0, 'wav', col)`: prepend a column, requiring its length
to match the number of rows (pandas raises otherwise). -/
def insertFirstColumn (table : List (List ℚ)) (col : List ℚ) :
    Except String (List (List ℚ)) :=
  if col.length = table.length then .ok (List.zipWith List.cons col table)
  else .error "ValueError: length of values does not match length of index"

/-- Whether the subclass `__init__` can be called with the four positional
arguments `from_simulations` supplies: the ionfrac constructor additionally
requires `vel_mid`, the phys constructor `vel_mid, temp, rho, ne`. -/
def requiredCtorArgsOk : ExporterType → Bool
  | .ionfrac => false
  | .phys => false
  | _ => true

/-- The state held by a constructed base output file. -/
structure OutputFileData where
  dtype : ExporterType
  times : List ℚ
  data_table : List (List ℚ)
  model_name : String

/-- The `from_simulations(simulations, model_name)`: extract times, data table and
optional first column, then call the class constructor with those four
arguments. -/
def from_simulations (t : ExporterType) (sims : List Simulation)
    (model_name : String) : Except String OutputFileData := do
  let times := get_times_from_simulations sims
  let table ← get_data_table_e t sims
  let fc ← get_data_first_column_e t sims
  let table2 ←
    match fc with
    | none => Except.ok table
    | some col => insertFirstColumn table col
  if requiredCtorArgsOk t then Except.ok ⟨t, times, table2, model_name⟩
  else Except.error "TypeError: __init__() missing required positional arguments"

/-- Whether a fallible computation succeeded. -/
def exceptIsOk {ε α : Type} : Except ε α → Bool
  | .ok _ => true
  | .error _ => false

/-- The exporter types whose `from_simulations` actually succeeds. -/
def expectedSuccess : ExporterType → Bool
  | .spectra => true
  | .tgas => true
  | .eden => true
  | .ionfrac => false
  | .phys => false

/-- Well-formedness of a simulation list: non-empty, each velocity array
strictly increasing with at least two entries, plasma arrays aligned with the
shells, and all spectra as long as the first simulation's wavelength array. -/
def simsWellFormed (sims : List Simulation) : Bool :=
  match sims with
  | [] => false
  | s0 :: _ =>
      sims.all (fun s =>
        decide (2 ≤ s.v_middle.length) && strictlyIncreasingB s.v_middle &&
        (s.t_electrons.length == s.v_middle.length) &&
        (s.electron_densities.length == s.v_middle.length) &&
        (s.luminosity_density_lambda.length == s0.wavelength.length))

/-- The data table of a constructed spectra exporter: transposed luminosity
densities with the wavelength column inserted in front
(`self.data_table.insert(0, 'wav', data_first_column)`). -/
def spectra_output_table (sims : List Simulation) : List (List ℚ) :=
  match sims with
  | [] => colsToRows (sims.map (·.luminosity_density_lambda))
  | s :: _ =>
      List.zipWith List.cons s.wavelength
        (colsToRows (sims.map (·.luminosity_density_lambda)))

/-- The full text (as lines) of a written spectra file. -/
def spectra_write_lines (sims : List Simulation) : List String :=
  base_write .spectra (get_times_from_simulations sims) (spectra_output_table sims)

/-- A `#`-comment line of the written file. -/
def isHeaderLine (s : String) : Bool :=
  match s.toList with
  | '#' :: _ => true
  | _ => false

/-- Parse a written file body: skip `#` header lines, split the remaining lines
on whitespace and read each field as a float. -/
def parseBody (lines : List String) : List (List ℚ) :=
  (lines.filter (fun l => !isHeaderLine l)).map
    (fun l => (splitOnSpaces l.toList).map parseE6chars)

/-- Value `a` agrees with `b` to (at least) six significant digits: the relative
error is at most half an ulp in the sixth significant digit. -/
def close6B (a b : ℚ) : Bool := decide (|a - b| ≤ |b| / (2 * 10 ^ 6))

/-- Table-wise six-significant-digit agreement, including shape agreement. -/
def closeTableB (p o : List (List ℚ)) : Bool :=
  (p.length == o.length) &&
  ((p.zip o).all (fun rs =>
    (rs.1.length == rs.2.length) &&
    ((rs.1.zip rs.2).all (fun ab => close6B ab.1 ab.2))))

/-! ## IonFracOutputFile -/

/-- Modelled from the spec: the external `pyne.nucname.name_zz` lookup mapping
recognized element symbols to atomic numbers; an unrecognized symbol raises
`KeyError`, modelled as `none`. -/
def name_zz : String → Option ℕ
  | "H" => some 1
  | "He" => some 2
  | "Li" => some 3
  | "Be" => some 4
  | "B" => some 5
  | "C" => some 6
  | "N" => some 7
  | "O" => some 8
  | "F" => some 9
  | "Ne" => some 10
  | "Na" => some 11
  | "Mg" => some 12
  | "Al" => some 13
  | "Si" => some 14
  | "P" => some 15
  | "S" => some 16
  | "Cl" => some 17
  | "Ar" => some 18
  | "K" => some 19
  | "Ca" => some 20
  | "Sc" => some 21
  | "Ti" => some 22
  | "V" => some 23
  | "Cr" => some 24
  | "Mn" => some 25
  | "Fe" => some 26
  | "Co" => some 27
  | "Ni" => some 28
  | _ => none

/-- The `' '.join([''.join([species, str(i)]) for i in range(self.species_num)])`:
the per-stage column names the constructor builds. -/
def ion_columns (species : String) (z : ℕ) : List String :=
  (List.range z).map (fun i => species ++ toString i)

/-- State of a constructed ionization-fraction exporter. Its per-time data
tables are rows keyed by `(atomic_number, ion_stage)` over the shells. -/
structure IonFracData where
  times : List ℚ
  data_table : List (List ((ℕ × ℕ) × List ℚ))
  model_name : String
  vel_mid : List ℚ
  species : String
  species_num : ℕ
  column_description : String

/-- The `IonFracOutputFile.__init__`: run the base constructor (whose
`data_table.insert` on the per-time list raises for a non-`None` first
column), look the species symbol up in `name_zz` (KeyError when unknown), then
extend the `#vel_mid[km/s]` column description with the per-stage names. -/
def ionfrac_init (times : List ℚ) (data_table : List (List ((ℕ × ℕ) × List ℚ)))
    (model_name : String) (data_first_column : Option (List ℚ))
    (vel_mid : List ℚ) (species : String) : Except String IonFracData :=
  match data_first_column with
  | some _ => .error "TypeError: insert expected 2 arguments"
  | none =>
      match name_zz species with
      | none => .error ("KeyError: " ++ species)
      | some z =>
          .ok { times := times, data_table := data_table, model_name := model_name,
                vel_mid := vel_mid, species := species, species_num := z,
                column_description :=
                  String.intercalate " "
                    [column_description .ionfrac,
                     String.intercalate " " (ion_columns species z)] }

/-- The `self.data_table[i].loc[self.species_num]`: the rows of the per-time table
whose first index level equals the species' atomic number. -/
def locElement (tbl : List ((ℕ × ℕ) × List ℚ)) (z : ℕ) : List (List ℚ) :=
  (tbl.filter (fun r => r.1.1 == z)).map (·.2)

/-- One per-time block of `IonFracOutputFile.write`: `#TIME`, `#NVEL`, the
column description and the per-shell rows, with `ion_df.insert(0, 'vel_mid',
self.vel_mid)` modelled by the length-checked column prepend (pandas raises
`ValueError` on a mismatched `vel_mid`). -/
def ionfrac_block (f : IonFracData) (tt : ℚ × List ((ℕ × ℕ) × List ℚ)) :
    Except String (List String) :=
  (insertFirstColumn (colsToRows (locElement tt.2 f.species_num)) f.vel_mid).map
    (fun rows =>
      ("#TIME: " ++ toString tt.1) ::
      ("#NVEL: " ++ toString f.vel_mid.length) ::
      f.column_description ::
      rows.map csvRowLine)

/-- The `IonFracOutputFile.write` as the lines written: global header then one
block per time. A failing block insert surfaces the `ValueError` of pandas (in
Python the lines already written remain as a truncated file, which the spec
notes and no claim here depends on; the model surfaces the same error without
the partial content). -/
def ionfrac_write (f : IonFracData) : Except String (List String) := do
  let blocks ← (f.times.zip f.data_table).mapM (ionfrac_block f)
  pure (("#NTIMES: " ++ toString f.times.length) ::
    ("#NSTAGES: " ++ toString f.species_num) ::
    ("#TIMES[d]: " ++ times_str f.times) ::
    "#" :: blocks.flatten)

/-- A full ionfrac export attempt: construct the exporter, then write. When
construction fails, no file content is produced at all. -/
def ionfrac_export (times : List ℚ) (data_table : List (List ((ℕ × ℕ) × List ℚ)))
    (model_name : String) (data_first_column : Option (List ℚ))
    (vel_mid : List ℚ) (species : String) : Except String (List String) :=
  (ionfrac_init times data_table model_name data_first_column vel_mid species).bind
    ionfrac_write

/-- The per-block header line a constructed ionfrac exporter would write. -/
def ionfrac_header (species : String) : Option String :=
  ((ionfrac_init [] [] "m" none [] species).toOption).map (·.column_description)

/-! ## Heap-level model of the base constructor (for the frame claim) -/

/-- Mutating `DataFrame.insert(0, 'wav', col)` on the table object at index
`ref` of a store of live tables: pandas first checks the column length against
the number of rows (`ValueError` on mismatch, with every table left
unchanged); on success that very table is replaced in place by the
column-prepended rows. -/
def dfInsertFirst (store : List (List (List ℚ))) (ref : ℕ) (col : List ℚ) :
    Except String (List (List (List ℚ))) :=
  (insertFirstColumn (store.getD ref []) col).map (fun t => store.set ref t)

/-- A constructed base output file, holding a reference to (not a copy of) the
caller's table object. -/
structure BaseFileRef where
  times : List ℚ
  data_table_ref : ℕ
  model_name : String

/-- The `CodeComparisonOutputFile.__init__` over an explicit store of table
objects: keep the caller's table reference; when `data_first_column` is not
`None`, mutate that very table in place by prepending the column. -/
def base_init_store (store : List (List (List ℚ))) (times : List ℚ) (ref : ℕ)
    (model_name : String) (data_first_column : Option (List ℚ)) :
    Except String (List (List (List ℚ)) × BaseFileRef) :=
  match data_first_column with
  | none => .ok (store, ⟨times, ref, model_name⟩)
  | some col =>
      (dfInsertFirst store ref col).map (fun st => (st, ⟨times, ref, model_name⟩))

/-! # Theorems -/

/-- C3 (counterexample): for midpoint arrays `[1000,2000,3000]` and
`[1500,2500,3500,4500]` the code's shared grid is the six-point grid with
spacing 700, so it does **not** have spacing at most 500 km/s, nor at least
nine points (the smallest successive difference of any single input array is
1000, not 500). -/
theorem C3_counterexample :
    get_velocity_grid_from_simulations [[1000, 2000, 3000], [1500, 2500, 3500, 4500]] =
      [1000, 1700, 2400, 3100, 3800, 4500] ∧
    ¬ (spacingLeB 500
        (get_velocity_grid_from_simulations
          [[1000, 2000, 3000], [1500, 2500, 3500, 4500]]) = true ∧
       9 ≤ (get_velocity_grid_from_simulations
          [[1000, 2000, 3000], [1500, 2500, 3500, 4500]]).length) := by
  decide

/-- C3 (amended): for those two input arrays the shared grid spans exactly
`[1000, 4500]`, has successive spacing at most 1000 km/s (the smallest
per-array spacing, with actual spacing 700), and contains exactly 6 points. -/
theorem C3_amended :
    (get_velocity_grid_from_simulations
        [[1000, 2000, 3000], [1500, 2500, 3500, 4500]]).get? 0 = some 1000 ∧
    (get_velocity_grid_from_simulations
        [[1000, 2000, 3000], [1500, 2500, 3500, 4500]]).get? 5 = some 4500 ∧
    spacingLeB 1000
      (get_velocity_grid_from_simulations
        [[1000, 2000, 3000], [1500, 2500, 3500, 4500]]) = true ∧
    (get_velocity_grid_from_simulations
        [[1000, 2000, 3000], [1500, 2500, 3500, 4500]]).length = 6 := by
  decide

/-! ## List reduction lemmas -/

theorem foldl_min_le_init (xs : List ℚ) (a : ℚ) : xs.foldl min a ≤ a := by
  induction xs generalizing a with
  | nil => exact le_refl a
  | cons y ys ih => exact le_trans (ih (min a y)) (min_le_left a y)

theorem foldl_min_le_mem {xs : List ℚ} {y : ℚ} (h : y ∈ xs) (a : ℚ) :
    xs.foldl min a ≤ y := by
  induction xs generalizing a with
  | nil => cases h
  | cons z zs ih =>
    rcases List.mem_cons.mp h with rfl | hz
    · exact le_trans (foldl_min_le_init zs (min a y)) (min_le_right a y)
    · exact ih hz (min a z)

theorem foldl_min_mem (xs : List ℚ) (a : ℚ) :
    xs.foldl min a = a ∨ xs.foldl min a ∈ xs := by
  induction xs generalizing a with
  | nil => exact Or.inl rfl
  | cons z zs ih =>
    rcases ih (min a z) with h | h
    · rcases min_choice a z with h1 | h1
      · exact Or.inl (by rw [List.foldl_cons, h, h1])
      · exact Or.inr (by rw [List.foldl_cons, h, h1]; exact List.mem_cons_self z zs)
    · exact Or.inr (List.mem_cons_of_mem z h)

theorem foldl_min_of_le (xs : List ℚ) (a : ℚ) (h : ∀ y ∈ xs, a ≤ y) :
    xs.foldl min a = a := by
  induction xs generalizing a with
  | nil => rfl
  | cons z zs ih =>
    rw [List.foldl_cons, min_eq_left (h z (List.mem_cons_self z zs))]
    exact ih a (fun y hy => h y (List.mem_cons_of_mem z hy))

theorem foldl_max_ge_init (xs : List ℚ) (a : ℚ) : a ≤ xs.foldl max a := by
  induction xs generalizing a with
  | nil => exact le_refl a
  | cons y ys ih => exact le_trans (le_max_left a y) (ih (max a y))

theorem foldl_max_ge_mem {xs : List ℚ} {y : ℚ} (h : y ∈ xs) (a : ℚ) :
    y ≤ xs.foldl max a := by
  induction xs generalizing a with
  | nil => cases h
  | cons z zs ih =>
    rcases List.mem_cons.mp h with rfl | hz
    · exact le_trans (le_max_right a y) (foldl_max_ge_init zs (max a y))
    · exact ih hz (max a z)

theorem foldl_max_mem (xs : List ℚ) (a : ℚ) :
    xs.foldl max a = a ∨ xs.foldl max a ∈ xs := by
  induction xs generalizing a with
  | nil => exact Or.inl rfl
  | cons z zs ih =>
    rcases ih (max a z) with h | h
    · rcases max_choice a z with h1 | h1
      · exact Or.inl (by rw [List.foldl_cons, h, h1])
      · exact Or.inr (by rw [List.foldl_cons, h, h1]; exact List.mem_cons_self z zs)
    · exact Or.inr (List.mem_cons_of_mem z h)

theorem foldl_max_of_ge (xs : List ℚ) (a : ℚ) (h : ∀ y ∈ xs, y ≤ a) :
    xs.foldl max a = a := by
  induction xs generalizing a with
  | nil => rfl
  | cons z zs ih =>
    rw [List.foldl_cons, max_eq_left (h z (List.mem_cons_self z zs))]
    exact ih a (fun y hy => h y (List.mem_cons_of_mem z hy))

theorem listMin_le {l : List ℚ} {y : ℚ} (h : y ∈ l) : listMin l ≤ y := by
  cases l with
  | nil => cases h
  | cons x xs =>
    rcases List.mem_cons.mp h with rfl | hy
    · exact foldl_min_le_init xs y
    · exact foldl_min_le_mem hy x

theorem listMin_mem {l : List ℚ} (h : l ≠ []) : listMin l ∈ l := by
  cases l with
  | nil => exact absurd rfl h
  | cons x xs =>
    rcases foldl_min_mem xs x with h1 | h1
    · rw [listMin, h1]; exact List.mem_cons_self x xs
    · exact List.mem_cons_of_mem x h1

theorem le_listMax {l : List ℚ} {y : ℚ} (h : y ∈ l) : y ≤ listMax l := by
  cases l with
  | nil => cases h
  | cons x xs =>
    rcases List.mem_cons.mp h with rfl | hy
    · exact foldl_max_ge_init xs y
    · exact foldl_max_ge_mem hy x

theorem listMax_mem {l : List ℚ} (h : l ≠ []) : listMax l ∈ l := by
  cases l with
  | nil => exact absurd rfl h
  | cons x xs =>
    rcases foldl_max_mem xs x with h1 | h1
    · rw [listMax, h1]; exact List.mem_cons_self x xs
    · exact List.mem_cons_of_mem x h1

/-! ## Adjacent-pair predicate lemmas -/

theorem pairsAllB_cons2 (p : ℚ → ℚ → Bool) (a b : ℚ) (t : List ℚ) :
    pairsAllB p (a :: b :: t) = (p a b && pairsAllB p (b :: t)) := rfl

theorem pairsAllB_iff_chain (p : ℚ → ℚ → Bool) :
    ∀ l : List ℚ, pairsAllB p l = true ↔ List.Chain' (fun a b => p a b = true) l
  | [] => by simp [pairsAllB]
  | [x] => by simp [pairsAllB]
  | a :: b :: t => by
    rw [pairsAllB_cons2, Bool.and_eq_true, List.chain'_cons,
      pairsAllB_iff_chain p (b :: t)]

theorem strictlyIncreasingB_iff (l : List ℚ) :
    strictlyIncreasingB l = true ↔ List.Chain' (· < ·) l := by
  rw [strictlyIncreasingB, pairsAllB_iff_chain]
  constructor
  · exact fun h => h.imp (fun _ _ hab => of_decide_eq_true hab)
  · exact fun h => h.imp (fun _ _ hab => decide_eq_true hab)

theorem strictlyIncreasingB_pairwise {l : List ℚ} (h : strictlyIncreasingB l = true) :
    List.Pairwise (· < ·) l :=
  List.chain'_iff_pairwise.mp ((strictlyIncreasingB_iff l).mp h)

theorem pairwise_get?_lt {l : List ℚ} (h : List.Pairwise (· < ·) l) {i j : ℕ}
    {x y : ℚ} (hij : i < j) (hx : l.get? i = some x) (hy : l.get? j = some y) :
    x < y := by
  obtain ⟨hi, rfl⟩ := List.get?_eq_some.mp hx
  obtain ⟨hj, rfl⟩ := List.get?_eq_some.mp hy
  exact List.pairwise_iff_get.mp h ⟨i, hi⟩ ⟨j, hj⟩ hij

theorem pairsAllB_of_get? (p : ℚ → ℚ → Bool) :
    ∀ l : List ℚ,
      (∀ i x y, l.get? i = some x → l.get? (i + 1) = some y → p x y = true) →
      pairsAllB p l = true
  | [] => fun _ => rfl
  | [_] => fun _ => rfl
  | a :: b :: t => fun h => by
    rw [pairsAllB_cons2, Bool.and_eq_true]
    refine ⟨h 0 a b rfl rfl, pairsAllB_of_get? p (b :: t) (fun i x y hx hy => ?_)⟩
    exact h (i + 1) x y hx hy

theorem chain'_zip_tail {R : ℚ → ℚ → Prop} :
    ∀ {l : List ℚ}, List.Chain' R l → ∀ q ∈ l.zip l.tail, R q.1 q.2
  | [], _, _, hq => by cases hq
  | [_], _, _, hq => by cases hq
  | _ :: _ :: _, h, q, hq => by
    rw [List.chain'_cons] at h
    rcases List.mem_cons.mp hq with rfl | hq2
    · exact h.1
    · exact chain'_zip_tail h.2 q hq2

theorem diffsOf_length (l : List ℚ) : (diffsOf l).length = l.length - 1 := by
  cases l with
  | nil => rfl
  | cons x xs =>
    simp only [diffsOf, List.length_map, List.length_zip, List.tail_cons,
      List.length_cons]
    omega

theorem diffsOf_pos {l : List ℚ} (h : List.Chain' (· < ·) l) :
    ∀ d ∈ diffsOf l, 0 < d := by
  intro d hd
  obtain ⟨q, hq, rfl⟩ := List.mem_map.mp hd
  have := chain'_zip_tail h q hq
  linarith

/-! ## Rounding and linspace lemmas -/

theorem roundHalfEven_ge (q : ℚ) : q - 1/2 ≤ (roundHalfEven q : ℚ) := by
  have hl : (⌊q⌋ : ℚ) ≤ q := Int.floor_le q
  have hu : q < ⌊q⌋ + 1 := Int.lt_floor_add_one q
  simp only [roundHalfEven]
  split_ifs <;> push_cast <;> linarith

theorem roundHalfEven_le (q : ℚ) : (roundHalfEven q : ℚ) ≤ q + 1/2 := by
  have hl : (⌊q⌋ : ℚ) ≤ q := Int.floor_le q
  have hu : q < ⌊q⌋ + 1 := Int.lt_floor_add_one q
  simp only [roundHalfEven]
  split_ifs <;> push_cast <;> linarith

theorem roundHalfEven_nonneg {q : ℚ} (h : 0 ≤ q) : 0 ≤ roundHalfEven q := by
  have h1 := roundHalfEven_ge q
  have h2 : (-1 : ℚ) < (roundHalfEven q : ℚ) := by linarith
  have h3 : (-1 : ℤ) < roundHalfEven q := by exact_mod_cast h2
  omega

theorem linspace_length (a b : ℚ) (n : ℕ) : (linspace a b n).length = n := by
  rw [linspace, List.length_map, List.length_range]

theorem linspace_get? (a b : ℚ) (n i : ℕ) (h : i < n) :
    (linspace a b n).get? i = some (a + (i : ℚ) * ((b - a) / ((n : ℚ) - 1))) := by
  rw [linspace, List.get?_eq_getElem?, List.getElem?_map, List.getElem?_range h]
  rfl

/-! ## Velocity-grid facts -/

theorem velocityInputsWF_unpack {arrs : List (List ℚ)}
    (h : velocityInputsWF arrs = true) :
    arrs ≠ [] ∧ ∀ a ∈ arrs, 2 ≤ a.length ∧ List.Chain' (· < ·) a := by
  rw [velocityInputsWF, Bool.and_eq_true, List.all_eq_true] at h
  constructor
  · intro hnil
    rw [hnil] at h
    simp at h
  · intro a ha
    have h2 := h.2 a ha
    rw [Bool.and_eq_true, decide_eq_true_eq] at h2
    exact ⟨h2.1, (strictlyIncreasingB_iff a).mp h2.2⟩

theorem minDeltaV_pos {arrs : List (List ℚ)} (h : velocityInputsWF arrs = true) :
    0 < minDeltaV arrs := by
  obtain ⟨hne, hall⟩ := velocityInputsWF_unpack h
  have hmem := listMin_mem (l := arrs.map (fun v => listMin (diffsOf v)))
    (by simpa using hne)
  obtain ⟨a, ha, heq⟩ := List.mem_map.mp (hmem)
  obtain ⟨hlen, hchain⟩ := hall a ha
  have hdne : diffsOf a ≠ [] := by
    intro hnil
    have := diffsOf_length a
    rw [hnil] at this
    simp at this
    omega
  rw [minDeltaV, ← heq]
  exact diffsOf_pos hchain _ (listMin_mem hdne)

theorem vMinAll_le {arrs : List (List ℚ)} {a : List ℚ} {x : ℚ}
    (ha : a ∈ arrs) (hx : x ∈ a) : vMinAll arrs ≤ x :=
  le_trans (listMin_le (List.mem_map_of_mem listMin ha)) (listMin_le hx)

theorem le_vMaxAll {arrs : List (List ℚ)} {a : List ℚ} {x : ℚ}
    (ha : a ∈ arrs) (hx : x ∈ a) : x ≤ vMaxAll arrs :=
  le_trans (le_listMax hx) (le_listMax (List.mem_map_of_mem listMax ha))

theorem vMinAll_attained {arrs : List (List ℚ)} (hne : arrs ≠ [])
    (hall : ∀ a ∈ arrs, a ≠ []) : ∃ a ∈ arrs, vMinAll arrs ∈ a := by
  have hmem := listMin_mem (l := arrs.map listMin) (by simpa using hne)
  obtain ⟨a, ha, heq⟩ := List.mem_map.mp hmem
  exact ⟨a, ha, by rw [vMinAll, ← heq]; exact listMin_mem (hall a ha)⟩

theorem vMaxAll_attained {arrs : List (List ℚ)} (hne : arrs ≠ [])
    (hall : ∀ a ∈ arrs, a ≠ []) : ∃ a ∈ arrs, vMaxAll arrs ∈ a := by
  have hmem := listMax_mem (l := arrs.map listMax) (by simpa using hne)
  obtain ⟨a, ha, heq⟩ := List.mem_map.mp hmem
  exact ⟨a, ha, by rw [vMaxAll, ← heq]; exact listMax_mem (hall a ha)⟩

theorem vMinAll_lt_vMaxAll {arrs : List (List ℚ)}
    (h : velocityInputsWF arrs = true) : vMinAll arrs < vMaxAll arrs := by
  obtain ⟨hne, hall⟩ := velocityInputsWF_unpack h
  obtain ⟨a, ha⟩ := List.exists_mem_of_ne_nil arrs hne
  obtain ⟨hlen, hchain⟩ := hall a ha
  match a, hlen with
  | x :: y :: t, _ =>
    have hxy : x < y := (List.chain'_cons.mp hchain).1
    have h1 : vMinAll arrs ≤ x := vMinAll_le ha (List.mem_cons_self _ _)
    have h2 : y ≤ vMaxAll arrs :=
      le_vMaxAll ha (List.mem_cons_of_mem _ (List.mem_cons_self _ _))
    linarith

theorem nShellsInt_ge_two {arrs : List (List ℚ)}
    (h : velocityInputsWF arrs = true) : 2 ≤ nShellsInt arrs := by
  have hδ := minDeltaV_pos h
  have hΔ := vMinAll_lt_vMaxAll h
  have hr : 0 ≤ (vMaxAll arrs - vMinAll arrs) / minDeltaV arrs :=
    div_nonneg (by linarith) (le_of_lt hδ)
  have := roundHalfEven_nonneg hr
  rw [nShellsInt]
  omega

theorem gridN_ge_two {arrs : List (List ℚ)}
    (h : velocityInputsWF arrs = true) : 2 ≤ (nShellsInt arrs).toNat := by
  have := nShellsInt_ge_two h
  omega

theorem gridN_cast {arrs : List (List ℚ)}
    (h : velocityInputsWF arrs = true) :
    (((nShellsInt arrs).toNat : ℚ)) = ((nShellsInt arrs : ℤ) : ℚ) := by
  have := nShellsInt_ge_two h
  have h0 : 0 ≤ nShellsInt arrs := by omega
  exact_mod_cast congrArg (fun z : ℤ => (z : ℚ)) (Int.toNat_of_nonneg h0)

theorem grid_step_le_minDelta {arrs : List (List ℚ)}
    (h : velocityInputsWF arrs = true) :
    (vMaxAll arrs - vMinAll arrs) / (((nShellsInt arrs).toNat : ℚ) - 1) ≤
      minDeltaV arrs := by
  have hδ := minDeltaV_pos h
  have hΔ : 0 < vMaxAll arrs - vMinAll arrs := by
    have := vMinAll_lt_vMaxAll h
    linarith
  set r := (vMaxAll arrs - vMinAll arrs) / minDeltaV arrs with hrdef
  have hrpos : 0 < r := div_pos hΔ hδ
  have hbound : r ≤ ((nShellsInt arrs).toNat : ℚ) - 1 := by
    rw [gridN_cast h, nShellsInt]
    have := roundHalfEven_ge r
    push_cast
    linarith
  have hstep : (vMaxAll arrs - vMinAll arrs) / (((nShellsInt arrs).toNat : ℚ) - 1) ≤
      (vMaxAll arrs - vMinAll arrs) / r := by
    gcongr
  have hr2 : (vMaxAll arrs - vMinAll arrs) / r = minDeltaV arrs := by
    rw [hrdef]
    field_simp
  linarith

/-- C4: for well-formed inputs (non-empty collection of strictly increasing
arrays with at least two entries each), the uniform grid spacing
`(v_max - v_min) / (num_points - 1)` with `num_points = round(...) + 2` is at
most `min_delta`, the smallest successive difference of any single input
array; equivalently, every successive spacing of the produced grid is at most
`min_delta`. -/
theorem C4_grid_spacing (arrs : List (List ℚ))
    (h : velocityInputsWF arrs = true) :
    (vMaxAll arrs - vMinAll arrs) / (((nShellsInt arrs).toNat : ℚ) - 1) ≤
      minDeltaV arrs ∧
    spacingLeB (minDeltaV arrs) (get_velocity_grid_from_simulations arrs) = true := by
  refine ⟨grid_step_le_minDelta h, ?_⟩
  rw [get_velocity_grid_from_simulations, spacingLeB]
  apply pairsAllB_of_get?
  intro i x y hx hy
  set n := (nShellsInt arrs).toNat with hn
  have hylt : i + 1 < n := by
    obtain ⟨hlt, _⟩ := List.get?_eq_some.mp hy
    rwa [linspace_length] at hlt
  have hxlt : i < n := by omega
  rw [linspace_get? _ _ _ _ hxlt] at hx
  rw [linspace_get? _ _ _ _ hylt] at hy
  have hx' := Option.some.inj hx
  have hy' := Option.some.inj hy
  rw [decide_eq_true_eq, ← hx', ← hy']
  have hstep := grid_step_le_minDelta h
  rw [← hn] at hstep
  have hcast : ((i + 1 : ℕ) : ℚ) = (i : ℚ) + 1 := by push_cast; ring
  rw [hcast]
  set s := (vMaxAll arrs - vMinAll arrs) / ((n : ℚ) - 1) with hs
  have heq : vMinAll arrs + ((i : ℚ) + 1) * s - (vMinAll arrs + (i : ℚ) * s) = s := by
    ring
  rw [heq]
  exact hstep

/-- C5: for well-formed inputs the shared velocity grid is strictly
increasing, has length at least 2, its first value is the global minimum over
all input arrays (it bounds every entry below and is attained in some array)
and its last value is the global maximum. -/
theorem C5_grid_shape (arrs : List (List ℚ))
    (h : velocityInputsWF arrs = true) :
    strictlyIncreasingB (get_velocity_grid_from_simulations arrs) = true ∧
    2 ≤ (get_velocity_grid_from_simulations arrs).length ∧
    (get_velocity_grid_from_simulations arrs).get? 0 = some (vMinAll arrs) ∧
    (get_velocity_grid_from_simulations arrs).get?
      ((get_velocity_grid_from_simulations arrs).length - 1) = some (vMaxAll arrs) ∧
    (arrs.all (fun a => a.all (fun x => decide (vMinAll arrs ≤ x))) = true) ∧
    (arrs.any (fun a => a.any (fun x => decide (x = vMinAll arrs))) = true) ∧
    (arrs.all (fun a => a.all (fun x => decide (x ≤ vMaxAll arrs))) = true) ∧
    (arrs.any (fun a => a.any (fun x => decide (x = vMaxAll arrs))) = true) := by
  obtain ⟨hne, hall⟩ := velocityInputsWF_unpack h
  have hallne : ∀ a ∈ arrs, a ≠ [] := by
    intro a ha
    have := (hall a ha).1
    intro hnil
    rw [hnil] at this
    simp at this
  have hN := gridN_ge_two h
  have hΔ : 0 < vMaxAll arrs - vMinAll arrs := by
    have := vMinAll_lt_vMaxAll h
    linarith
  set n := (nShellsInt arrs).toNat with hn
  have hstep : 0 < (vMaxAll arrs - vMinAll arrs) / ((n : ℚ) - 1) := by
    apply div_pos hΔ
    have : (2 : ℚ) ≤ (n : ℚ) := by exact_mod_cast hN
    linarith
  refine ⟨?_, ?_, ?_, ?_, ?_, ?_, ?_, ?_⟩
  · rw [get_velocity_grid_from_simulations, strictlyIncreasingB]
    apply pairsAllB_of_get?
    intro i x y hx hy
    have hylt : i + 1 < n := by
      obtain ⟨hlt, _⟩ := List.get?_eq_some.mp hy
      rwa [linspace_length] at hlt
    have hxlt : i < n := by omega
    rw [linspace_get? _ _ _ _ hxlt] at hx
    rw [linspace_get? _ _ _ _ hylt] at hy
    have hx' := Option.some.inj hx
    have hy' := Option.some.inj hy
    rw [decide_eq_true_eq, ← hx', ← hy']
    have hcast : ((i + 1 : ℕ) : ℚ) = (i : ℚ) + 1 := by push_cast; ring
    rw [hcast]
    nlinarith [hstep]
  · rw [get_velocity_grid_from_simulations, linspace_length]
    exact hN
  · rw [get_velocity_grid_from_simulations, linspace_get? _ _ _ _ (by omega)]
    norm_num
  · rw [get_velocity_grid_from_simulations, linspace_length,
      linspace_get? _ _ _ _ (by omega)]
    congr 1
    have hcast : ((n - 1 : ℕ) : ℚ) = (n : ℚ) - 1 := by
      have : 1 ≤ n := by omega
      push_cast [this]
      ring
    rw [hcast]
    have hne1 : (n : ℚ) - 1 ≠ 0 := by
      have h2 : (2 : ℚ) ≤ (n : ℚ) := by exact_mod_cast hN
      intro hc
      rw [sub_eq_zero] at hc
      rw [hc] at h2
      norm_num at h2
    field_simp
  · rw [List.all_eq_true]
    intro a ha
    rw [List.all_eq_true]
    intro x hx
    exact decide_eq_true (vMinAll_le ha hx)
  · rw [List.any_eq_true]
    obtain ⟨a, ha, hmem⟩ := vMinAll_attained hne hallne
    exact ⟨a, ha, List.any_eq_true.mpr ⟨_, hmem, decide_eq_true rfl⟩⟩
  · rw [List.all_eq_true]
    intro a ha
    rw [List.all_eq_true]
    intro x hx
    exact decide_eq_true (le_vMaxAll ha hx)
  · rw [List.any_eq_true]
    obtain ⟨a, ha, hmem⟩ := vMaxAll_attained hne hallne
    exact ⟨a, ha, List.any_eq_true.mpr ⟨_, hmem, decide_eq_true rfl⟩⟩

/-- C4 witness: concrete instantiation at the inputs `[[0,1],[0,2]]`. -/
theorem C4_witness :
    (vMaxAll [[0, 1], [0, 2]] - vMinAll [[0, 1], [0, 2]]) /
        (((nShellsInt [[0, 1], [0, 2]]).toNat : ℚ) - 1) ≤
      minDeltaV [[0, 1], [0, 2]] ∧
    spacingLeB (minDeltaV [[0, 1], [0, 2]])
      (get_velocity_grid_from_simulations [[0, 1], [0, 2]]) = true :=
  C4_grid_spacing [[0, 1], [0, 2]] (by decide)

/-- C5 witness: concrete instantiation at the inputs `[[0,1],[0,2]]`. -/
theorem C5_witness :
    strictlyIncreasingB (get_velocity_grid_from_simulations [[0, 1], [0, 2]]) = true ∧
    2 ≤ (get_velocity_grid_from_simulations [[0, 1], [0, 2]]).length ∧
    (get_velocity_grid_from_simulations [[0, 1], [0, 2]]).get? 0 =
      some (vMinAll [[0, 1], [0, 2]]) ∧
    (get_velocity_grid_from_simulations [[0, 1], [0, 2]]).get?
        ((get_velocity_grid_from_simulations [[0, 1], [0, 2]]).length - 1) =
      some (vMaxAll [[0, 1], [0, 2]]) ∧
    ([[0, 1], [0, 2]].all (fun a =>
      a.all (fun x => decide (vMinAll [[0, 1], [0, 2]] ≤ x))) = true) ∧
    ([[0, 1], [0, 2]].any (fun a =>
      a.any (fun x => decide (x = vMinAll [[0, 1], [0, 2]]))) = true) ∧
    ([[0, 1], [0, 2]].all (fun a =>
      a.all (fun x => decide (x ≤ vMaxAll [[0, 1], [0, 2]]))) = true) ∧
    ([[0, 1], [0, 2]].any (fun a =>
      a.any (fun x => decide (x = vMaxAll [[0, 1], [0, 2]]))) = true) :=
  C5_grid_shape [[0, 1], [0, 2]] (by decide)

/-! ## np.interp lemmas -/

theorem listMin_sorted {x : ℚ} {xs : List ℚ}
    (h : List.Pairwise (· < ·) (x :: xs)) : listMin (x :: xs) = x := by
  rw [listMin]
  exact foldl_min_of_le xs x
    (fun y hy => le_of_lt (List.rel_of_pairwise_cons h hy))

theorem listMax_sorted :
    ∀ {x : ℚ} {xs : List ℚ}, List.Chain' (· < ·) (x :: xs) →
      listMax (x :: xs) = xs.getLastD x
  | _, [], _ => rfl
  | x, y :: t, h => by
    have h1 := (List.chain'_cons.mp h).1
    have h2 := (List.chain'_cons.mp h).2
    have hstep : listMax (x :: y :: t) = listMax (y :: t) := by
      show (y :: t).foldl max x = t.foldl max y
      rw [List.foldl_cons, max_eq_right (le_of_lt h1)]
    rw [hstep, listMax_sorted h2, List.getLastD_cons]

theorem interp_onto_grid_get? (grid v vals : List ℚ) (j : ℕ) (x : ℚ)
    (hx : grid.get? j = some x) :
    (interp_onto_grid grid v vals).get? j =
      some (npInterp x v vals sentinel sentinel) := by
  rw [interp_onto_grid, List.get?_eq_getElem?, List.getElem?_map,
    ← List.get?_eq_getElem?, hx]
  rfl

theorem segWalk_spec (x : ℚ) :
    ∀ (pts : List (ℚ × ℚ)) (i : ℕ) (a b fa fb : ℚ),
      List.Pairwise (fun p q : ℚ × ℚ => p.1 < q.1) pts →
      pts.get? i = some (a, fa) → pts.get? (i + 1) = some (b, fb) →
      a ≤ x → x ≤ b →
      segWalk x pts = fa + (fb - fa) * (x - a) / (b - a)
  | [], i, a, b, fa, fb, _, h0, _, _, _ => by cases h0
  | [p], i, a, b, fa, fb, _, _, h1, _, _ => by
    rw [show ([p].get? (i + 1)) = none from by cases i <;> rfl] at h1
    cases h1
  | (x0, f0) :: (x1, f1) :: rest, 0, a, b, fa, fb, hpw, h0, h1, hax, hxb => by
    have ha : x0 = a ∧ f0 = fa := by
      have := Option.some.inj h0
      exact ⟨congrArg Prod.fst this, congrArg Prod.snd this⟩
    have hb : x1 = b ∧ f1 = fb := by
      have := Option.some.inj h1
      exact ⟨congrArg Prod.fst this, congrArg Prod.snd this⟩
    obtain ⟨rfl, rfl⟩ := ha
    obtain ⟨rfl, rfl⟩ := hb
    simp only [segWalk]
    rw [if_pos hxb]
  | (x0, f0) :: (x1, f1) :: rest, j + 1, a, b, fa, fb, hpw, h0, h1, hax, hxb => by
    have hpw' : List.Pairwise (fun p q : ℚ × ℚ => p.1 < q.1) ((x1, f1) :: rest) :=
      List.Pairwise.of_cons hpw
    have h0' : ((x1, f1) :: rest).get? j = some (a, fa) := h0
    have h1' : ((x1, f1) :: rest).get? (j + 1) = some (b, fb) := h1
    by_cases hx1 : x ≤ x1
    · have hx1a : x1 ≤ a := by
        cases j with
        | zero =>
          have := Option.some.inj h0'
          exact le_of_eq (congrArg Prod.fst this)
        | succ k =>
          have hmem : (a, fa) ∈ rest := List.get?_mem h0'
          exact le_of_lt (List.rel_of_pairwise_cons hpw' hmem)
      have hxx1 : x = x1 := le_antisymm hx1 (le_trans hx1a hax)
      cases j with
      | succ k =>
        have hmem : (a, fa) ∈ rest := List.get?_mem h0'
        have : x1 < a := List.rel_of_pairwise_cons hpw' hmem
        have : x1 < x1 := by
          calc x1 < a := this
          _ ≤ x := hax
          _ = x1 := hxx1
        exact absurd this (lt_irrefl x1)
      | zero =>
        have hafa := Option.some.inj h0'
        have ha : x1 = a := congrArg Prod.fst hafa
        have hfa : f1 = fa := congrArg Prod.snd hafa
        have hx01 : x0 < x1 :=
          List.rel_of_pairwise_cons hpw (List.mem_cons_self _ _)
        have hne : x1 - x0 ≠ 0 := by
          intro hc
          rw [sub_eq_zero] at hc
          rw [hc] at hx01
          exact lt_irrefl x0 hx01
        simp only [segWalk]
        rw [if_pos hx1, hxx1, ← ha, ← hfa]
        field_simp
    · push_neg at hx1
      have heq : segWalk x ((x0, f0) :: (x1, f1) :: rest) =
          segWalk x ((x1, f1) :: rest) := by
        simp only [segWalk]
        rw [if_neg (not_le.mpr hx1)]
      rw [heq]
      exact segWalk_spec x ((x1, f1) :: rest) j a b fa fb hpw' h0' h1' hax hxb

/-- C6: for every simulation column interpolated onto the shared grid, a query
point strictly below the simulation's own minimum velocity, or strictly above
its maximum, yields exactly the sentinel `1e-99`; a query point lying between
two successive knots of the simulation's own grid is linearly interpolated
between them. -/
theorem C6_interp_sentinel (grid v vals : List ℚ) (j : ℕ) (x : ℚ)
    (hv : strictlyIncreasingB v = true) (hne : v ≠ [])
    (hlen : v.length = vals.length) (hx : grid.get? j = some x) :
    (x < listMin v → (interp_onto_grid grid v vals).get? j = some sentinel) ∧
    (listMax v < x → (interp_onto_grid grid v vals).get? j = some sentinel) ∧
    (∀ i a b fa fb, v.get? i = some a → v.get? (i + 1) = some b →
      vals.get? i = some fa → vals.get? (i + 1) = some fb →
      a ≤ x → x ≤ b →
      (interp_onto_grid grid v vals).get? j =
        some (fa + (fb - fa) * (x - a) / (b - a))) := by
  have hchain : List.Chain' (· < ·) v := (strictlyIncreasingB_iff v).mp hv
  have hpw : List.Pairwise (· < ·) v := List.chain'_iff_pairwise.mp hchain
  match v, vals, hlen with
  | v0 :: vt, w0 :: wt, hlen =>
    rw [interp_onto_grid_get? grid _ _ j x hx]
    have hmin : listMin (v0 :: vt) = v0 := listMin_sorted hpw
    have hmax : listMax (v0 :: vt) = vt.getLastD v0 := listMax_sorted hchain
    refine ⟨?_, ?_, ?_⟩
    · intro hlow
      rw [hmin] at hlow
      simp only [npInterp]
      rw [if_pos hlow]
    · intro hhigh
      have h0max : v0 ≤ listMax (v0 :: vt) :=
        le_listMax (List.mem_cons_self _ _)
      have hnotlow : ¬ x < v0 := not_lt.mpr (le_of_lt (lt_of_le_of_lt h0max hhigh))
      rw [hmax] at hhigh
      simp only [npInterp]
      rw [if_neg hnotlow, if_pos hhigh]
    · intro i a b fa fb hia hib hifa hifb hax hxb
      have hv0a : v0 ≤ a := by
        cases i with
        | zero => exact le_of_eq (Option.some.inj hia)
        | succ k =>
          exact le_of_lt (pairwise_get?_lt hpw (Nat.succ_pos k) rfl hia)
      have hnotlow : ¬ x < v0 := not_lt.mpr (le_trans hv0a hax)
      have hbmax : b ≤ listMax (v0 :: vt) := le_listMax (List.get?_mem hib)
      have hnothigh : ¬ vt.getLastD v0 < x := by
        rw [← hmax]
        exact not_lt.mpr (le_trans hxb hbmax)
      simp only [npInterp]
      rw [if_neg hnotlow, if_neg hnothigh]
      refine congrArg some ?_
      apply segWalk_spec x (List.zip (v0 :: vt) (w0 :: wt)) i a b fa fb
      · have hfst : ((v0 :: vt).zip (w0 :: wt)).map Prod.fst = v0 :: vt :=
          List.map_fst_zip _ _ (le_of_eq hlen)
        have : List.Pairwise (· < ·) (((v0 :: vt).zip (w0 :: wt)).map Prod.fst) := by
          rw [hfst]
          exact hpw
        exact List.pairwise_map.mp this
      · exact (List.get?_zip_eq_some _ _ _ _).mpr ⟨hia, hifa⟩
      · exact (List.get?_zip_eq_some _ _ _ _).mpr ⟨hib, hifb⟩
      · exact hax
      · exact hxb

/-- C6 witness: grid points 0 (below), 100 (above) and 15 (interior) against a
simulation with velocity knots `[10, 20]` and values `[7, 9]`. -/
theorem C6_witness :
    (interp_onto_grid [0, 100, 15] [10, 20] [7, 9]).get? 0 = some sentinel ∧
    (interp_onto_grid [0, 100, 15] [10, 20] [7, 9]).get? 1 = some sentinel ∧
    (interp_onto_grid [0, 100, 15] [10, 20] [7, 9]).get? 2 =
      some (7 + (9 - 7) * (15 - 10) / (20 - 10)) :=
  ⟨(C6_interp_sentinel [0, 100, 15] [10, 20] [7, 9] 0 0 (by decide) (by decide)
      (by decide) rfl).1 (by decide),
   (C6_interp_sentinel [0, 100, 15] [10, 20] [7, 9] 1 100 (by decide) (by decide)
      (by decide) rfl).2.1 (by decide),
   (C6_interp_sentinel [0, 100, 15] [10, 20] [7, 9] 2 15 (by decide) (by decide)
      (by decide) rfl).2.2 0 10 20 7 9 rfl rfl rfl rfl (by decide) (by decide)⟩

/-! ## Claims about construction, lookup failure and the frame effect -/

/-- C10: the base constructor keeps the caller's table object: with
`data_first_column = None` the store (hence the table) is untouched; with a
column of matching length (pandas' `insert` requirement) it mutates that very
table in place, prepending the column to the rows while keeping all
pre-existing entries and their order, and every other table in the store is
unchanged; with a column of mismatched length the constructor raises the
pandas `ValueError` instead of producing any store. -/
theorem C10_insert_frame (store : List (List (List ℚ))) (times : List ℚ)
    (ref : ℕ) (nm : String) (tbl : List (List ℚ)) (col col2 : List ℚ) (r : ℕ)
    (h : store.get? ref = some tbl) (hlen : col.length = tbl.length)
    (hlen2 : ¬ col2.length = tbl.length) (hr : r ≠ ref) :
    base_init_store store times ref nm none = .ok (store, ⟨times, ref, nm⟩) ∧
    base_init_store store times ref nm (some col) =
      .ok (store.set ref (List.zipWith List.cons col tbl), ⟨times, ref, nm⟩) ∧
    (store.set ref (List.zipWith List.cons col tbl)).get? r = store.get? r ∧
    base_init_store store times ref nm (some col2) =
      .error "ValueError: length of values does not match length of index" := by
  have hget : store.getD ref [] = tbl := by
    rw [List.getD_eq_get?, h]
    rfl
  refine ⟨rfl, ?_, ?_, ?_⟩
  · show (dfInsertFirst store ref col).map _ = _
    rw [dfInsertFirst, hget, insertFirstColumn, if_pos hlen]
    rfl
  · exact List.get?_set_ne _ _ (fun he => hr he.symm)
  · show (dfInsertFirst store ref col2).map _ = _
    rw [dfInsertFirst, hget, insertFirstColumn, if_neg hlen2]
    rfl

/-- C10 witness: a two-table store, inserting the matching column `[5, 6]`
into table 0 (and refusing the mismatched column `[7]`). -/
theorem C10_witness :
    base_init_store [[[1], [2]], [[3]]] [9] 0 "m" none =
      .ok ([[[1], [2]], [[3]]], ⟨[9], 0, "m"⟩) ∧
    base_init_store [[[1], [2]], [[3]]] [9] 0 "m" (some [5, 6]) =
      .ok ([[[1], [2]], [[3]]].set 0 (List.zipWith List.cons [5, 6] [[1], [2]]),
        ⟨[9], 0, "m"⟩) ∧
    (([[[1], [2]], [[3]]] : List (List (List ℚ))).set 0
        (List.zipWith List.cons [5, 6] [[1], [2]])).get? 1 =
      ([[[1], [2]], [[3]]] : List (List (List ℚ))).get? 1 ∧
    base_init_store [[[1], [2]], [[3]]] [9] 0 "m" (some [7]) =
      .error "ValueError: length of values does not match length of index" :=
  C10_insert_frame [[[1], [2]], [[3]]] [9] 0 "m" [[1], [2]] [5, 6] [7] 1 rfl
    (by decide) (by decide) (by decide)

/-- C7: for every unrecognized species symbol the ionization-fraction
constructor fails at the `name_zz` lookup with a `KeyError`, before `write`
could run, so the export produces no file content at all. -/
theorem C7_unknown_species (times : List ℚ)
    (dt : List (List ((ℕ × ℕ) × List ℚ))) (nm : String) (vel : List ℚ)
    (species : String) (h : name_zz species = none) :
    ionfrac_init times dt nm none vel species =
      .error ("KeyError: " ++ species) ∧
    ionfrac_export times dt nm none vel species =
      .error ("KeyError: " ++ species) := by
  have hinit : ionfrac_init times dt nm none vel species =
      .error ("KeyError: " ++ species) := by
    simp only [ionfrac_init, h]
  exact ⟨hinit, by rw [ionfrac_export, hinit]; rfl⟩

/-- C7 witness: the unrecognized symbol `"Xq"`. -/
theorem C7_witness :
    ionfrac_init [] [] "m" none [] "Xq" = .error ("KeyError: " ++ "Xq") ∧
    ionfrac_export [] [] "m" none [] "Xq" = .error ("KeyError: " ++ "Xq") :=
  C7_unknown_species [] [] "m" [] "Xq" rfl

/-- C1 (code evaluation at the failing input): for calcium (atomic number 20)
the constructor builds a per-block header with exactly 20 species-stage
columns `Ca0 .. Ca19` after the velocity column — not the 21 columns
(`Ca0 .. Ca20`) the claim demands — and in particular `Ca20` is absent. -/
theorem C1_code_eval :
    (ionfrac_header "Ca").map (fun s => (splitOnSpaces s.toList).length) =
      some 21 ∧
    (ionfrac_header "Ca").map (fun s => (splitOnSpaces s.toList).map String.mk) =
      some ("#vel_mid[km/s]" :: (List.range 20).map (fun i => "Ca" ++ toString i)) ∧
    (ion_columns "Ca" 20).contains "Ca20" = false ∧
    (ion_columns "Ca" 20).contains "Ca19" = true ∧
    (ion_columns "Ca" 20).length = 20 := by
  decide

/-! ## from_simulations success and failure (C2) -/

theorem except_bind_ok {ε α β : Type} (a : α) (f : α → Except ε β) :
    (Except.ok a : Except ε α) >>= f = f a := rfl

theorem except_bind_error {ε α β : Type} (e : ε) (f : α → Except ε β) :
    (Except.error e : Except ε α) >>= f = Except.error e := rfl

theorem simsWF_unpack {s0 : Simulation} {rest : List Simulation}
    (h : simsWellFormed (s0 :: rest) = true) :
    ∀ s ∈ s0 :: rest,
      (2 ≤ s.v_middle.length ∧ strictlyIncreasingB s.v_middle = true) ∧
      (s.t_electrons.length = s.v_middle.length ∧
       s.electron_densities.length = s.v_middle.length) ∧
      s.luminosity_density_lambda.length = s0.wavelength.length := by
  rw [show simsWellFormed (s0 :: rest) = (s0 :: rest).all (fun s =>
      decide (2 ≤ s.v_middle.length) && strictlyIncreasingB s.v_middle &&
      (s.t_electrons.length == s.v_middle.length) &&
      (s.electron_densities.length == s.v_middle.length) &&
      (s.luminosity_density_lambda.length == s0.wavelength.length)) from rfl,
    List.all_eq_true] at h
  intro s hs
  have hsb := h s hs
  simp only [Bool.and_eq_true, decide_eq_true_eq, beq_iff_eq] at hsb
  exact ⟨⟨hsb.1.1.1.1, hsb.1.1.1.2⟩, ⟨hsb.1.1.2, hsb.1.2⟩, hsb.2⟩

theorem simsWF_velWF {s0 : Simulation} {rest : List Simulation}
    (h : simsWellFormed (s0 :: rest) = true) :
    velocityInputsWF ((s0 :: rest).map (·.v_middle)) = true := by
  have hall := simsWF_unpack h
  rw [velocityInputsWF, Bool.and_eq_true]
  refine ⟨rfl, ?_⟩
  rw [List.all_eq_true]
  intro a ha
  obtain ⟨s, hs, rfl⟩ := List.mem_map.mp ha
  rw [Bool.and_eq_true, decide_eq_true_eq]
  exact ⟨(hall s hs).1.1, (hall s hs).1.2⟩

/-- C2 (amended): for a well-formed non-empty simulation list,
`from_simulations` succeeds exactly for the spectra, tgas and eden exporters;
for ionfrac and phys it raises (their inherited `get_interpolation_values`
returns `None`, and their constructors require more than the four supplied
arguments). -/
theorem C2_amended (t : ExporterType) (sims : List Simulation) (nm : String)
    (h : simsWellFormed sims = true) :
    exceptIsOk (from_simulations t sims nm) = expectedSuccess t := by
  match sims with
  | [] => simp [simsWellFormed] at h
  | s0 :: rest =>
    have hall := simsWF_unpack h
    have hvel := simsWF_velWF h
    have hcond1 : ((s0 :: rest).isEmpty ||
        (s0 :: rest).any (fun s => decide (s.v_middle.length < 2))) = false := by
      simp only [List.isEmpty_cons, Bool.false_or, List.any_eq_false]
      intro s hs
      simp only [decide_eq_true_eq]
      have := (hall s hs).1.1
      omega
    have hN := nShellsInt_ge_two hvel
    have hN' : ¬ nShellsInt ((s0 :: rest).map (·.v_middle)) < 0 := by omega
    cases t with
    | spectra =>
      have hlen : s0.wavelength.length =
          (colsToRows ((s0 :: rest).map (·.luminosity_density_lambda))).length := by
        have h5 := (hall s0 (List.mem_cons_self _ _)).2.2
        simp only [List.map_cons, colsToRows, List.length_map, List.length_range]
        omega
      simp only [from_simulations, get_data_table_e, get_data_first_column_e,
        except_bind_ok, insertFirstColumn, if_pos hlen, requiredCtorArgsOk]
      rfl
    | tgas =>
      have hcheck : (s0 :: rest).all (fun s =>
          (get_interpolation_values .tgas s).isSome &&
          ((get_interpolation_values .tgas s).getD []).length ==
            s.v_middle.length) = true := by
        rw [List.all_eq_true]
        intro s hs
        simp only [get_interpolation_values, Option.isSome_some, Option.getD_some,
          Bool.true_and, beq_iff_eq]
        exact (hall s hs).2.1.1
      have hlen2 : (get_velocity_grid_from_simulations
            ((s0 :: rest).map (·.v_middle))).length =
          (colsToRows ((s0 :: rest).map (fun s =>
            interp_onto_grid (get_velocity_grid_from_simulations
              ((s0 :: rest).map (·.v_middle))) s.v_middle
              ((get_interpolation_values .tgas s).getD [])))).length := by
        simp only [List.map_cons, colsToRows, List.length_map, List.length_range,
          interp_onto_grid]
      simp only [from_simulations, get_data_table_e, get_data_first_column_e,
        hcond1, Bool.false_eq_true, if_false, if_neg hN', hcheck, if_true,
        except_bind_ok, insertFirstColumn, if_pos hlen2, requiredCtorArgsOk]
      rfl
    | eden =>
      have hcheck : (s0 :: rest).all (fun s =>
          (get_interpolation_values .eden s).isSome &&
          ((get_interpolation_values .eden s).getD []).length ==
            s.v_middle.length) = true := by
        rw [List.all_eq_true]
        intro s hs
        simp only [get_interpolation_values, Option.isSome_some, Option.getD_some,
          Bool.true_and, beq_iff_eq]
        exact (hall s hs).2.1.2
      have hlen2 : (get_velocity_grid_from_simulations
            ((s0 :: rest).map (·.v_middle))).length =
          (colsToRows ((s0 :: rest).map (fun s =>
            interp_onto_grid (get_velocity_grid_from_simulations
              ((s0 :: rest).map (·.v_middle))) s.v_middle
              ((get_interpolation_values .eden s).getD [])))).length := by
        simp only [List.map_cons, colsToRows, List.length_map, List.length_range,
          interp_onto_grid]
      simp only [from_simulations, get_data_table_e, get_data_first_column_e,
        hcond1, Bool.false_eq_true, if_false, if_neg hN', hcheck, if_true,
        except_bind_ok, insertFirstColumn, if_pos hlen2, requiredCtorArgsOk]
      rfl
    | ionfrac =>
      have hcheckF : (s0 :: rest).all (fun s =>
          (get_interpolation_values .ionfrac s).isSome &&
          ((get_interpolation_values .ionfrac s).getD []).length ==
            s.v_middle.length) = false := by
        rw [List.all_eq_false]
        exact ⟨s0, List.mem_cons_self _ _, by
          simp [get_interpolation_values]⟩
      simp only [from_simulations, get_data_table_e, hcond1, Bool.false_eq_true,
        if_false, if_neg hN', hcheckF, except_bind_error]
      rfl
    | phys =>
      have hcheckF : (s0 :: rest).all (fun s =>
          (get_interpolation_values .phys s).isSome &&
          ((get_interpolation_values .phys s).getD []).length ==
            s.v_middle.length) = false := by
        rw [List.all_eq_false]
        exact ⟨s0, List.mem_cons_self _ _, by
          simp [get_interpolation_values]⟩
      simp only [from_simulations, get_data_table_e, hcond1, Bool.false_eq_true,
        if_false, if_neg hN', hcheckF, except_bind_error]
      rfl

/-- C2 (counterexample): on a well-formed single-simulation input,
`from_simulations` for the ionfrac exporter fails (so not every exporter type
in the hierarchy succeeds as claimed). -/
theorem C2_counterexample :
    exceptIsOk (from_simulations .ionfrac
      [Simulation.mk 1 [0, 1] [5, 6] [7, 8] [100, 200] [300, 400]] "m") = false ∧
    simsWellFormed
      [Simulation.mk 1 [0, 1] [5, 6] [7, 8] [100, 200] [300, 400]] = true := by
  decide

/-- C2 witness: the same simulation list, for the tgas exporter. -/
theorem C2_witness :
    exceptIsOk (from_simulations .tgas
      [Simulation.mk 1 [0, 1] [5, 6] [7, 8] [100, 200] [300, 400]] "m") = true :=
  C2_amended .tgas [Simulation.mk 1 [0, 1] [5, 6] [7, 8] [100, 200] [300, 400]]
    "m" (by decide)

/-! ## Decimal digit lemmas -/

theorem digitsAux_zero : ∀ fuel, digitsAux fuel 0 = []
  | 0 => rfl
  | _ + 1 => rfl

theorem digitsAux_lt_ten : ∀ fuel n, ∀ d ∈ digitsAux fuel n, d < 10
  | 0, _, _, hd => by cases hd
  | _ + 1, 0, _, hd => by cases hd
  | fuel + 1, n + 1, d, hd => by
    rcases List.mem_cons.mp hd with rfl | hd2
    · exact Nat.mod_lt _ (by norm_num)
    · exact digitsAux_lt_ten fuel ((n + 1) / 10) d hd2

theorem ofDigitsLE_digitsAux : ∀ fuel n, n ≤ fuel → ofDigitsLE (digitsAux fuel n) = n
  | 0, n, h => by
    have : n = 0 := Nat.le_zero.mp h
    subst this
    rfl
  | fuel + 1, 0, _ => rfl
  | fuel + 1, n + 1, h => by
    have hdiv : (n + 1) / 10 ≤ fuel := by
      have := Nat.div_lt_self (Nat.succ_pos n) (by norm_num : 1 < 10)
      omega
    show (n + 1) % 10 + 10 * ofDigitsLE (digitsAux fuel ((n + 1) / 10)) = n + 1
    rw [ofDigitsLE_digitsAux fuel ((n + 1) / 10) hdiv]
    exact Nat.mod_add_div (n + 1) 10

theorem ofDigitsLE_digits10 (n : ℕ) : ofDigitsLE (digits10 n) = n :=
  ofDigitsLE_digitsAux n n le_rfl

theorem digits10_lt_ten (n : ℕ) : ∀ d ∈ digits10 n, d < 10 :=
  digitsAux_lt_ten n n

theorem digitsAux_length : ∀ fuel n k, n ≤ fuel → 10 ^ k ≤ n → n < 10 ^ (k + 1) →
    (digitsAux fuel n).length = k + 1
  | 0, n, k, hf, hlo, _ => by
    have : n = 0 := Nat.le_zero.mp hf
    subst this
    exact absurd hlo (Nat.not_le.mpr (Nat.pow_pos (by norm_num)))
  | fuel + 1, 0, k, _, hlo, _ =>
    absurd hlo (Nat.not_le.mpr (Nat.pow_pos (by norm_num)))
  | fuel + 1, n + 1, 0, _, _, hhi => by
    show ((n + 1) % 10 :: digitsAux fuel ((n + 1) / 10)).length = 1
    have hdiv : (n + 1) / 10 = 0 := by omega
    rw [hdiv, digitsAux_zero]
    rfl
  | fuel + 1, n + 1, k + 1, hf, hlo, hhi => by
    show ((n + 1) % 10 :: digitsAux fuel ((n + 1) / 10)).length = k + 2
    have h10 : (10 : ℕ) ^ (k + 1) ≥ 10 := by
      calc (10 : ℕ) ^ (k + 1) ≥ 10 ^ 1 := Nat.pow_le_pow_right (by norm_num) (by omega)
      _ = 10 := pow_one 10
    have hlo' : 10 ^ k ≤ (n + 1) / 10 := by
      rw [Nat.le_div_iff_mul_le (by norm_num : 0 < 10)]
      calc 10 ^ k * 10 = 10 ^ (k + 1) := (pow_succ 10 k).symm
      _ ≤ n + 1 := hlo
    have hhi' : (n + 1) / 10 < 10 ^ (k + 1) := by
      rw [Nat.div_lt_iff_lt_mul (by norm_num : 0 < 10)]
      calc n + 1 < 10 ^ (k + 2) := hhi
      _ = 10 ^ (k + 1) * 10 := pow_succ 10 (k + 1)
    have hf' : (n + 1) / 10 ≤ fuel := by
      have := Nat.div_lt_self (Nat.succ_pos n) (by norm_num : 1 < 10)
      omega
    rw [List.length_cons, digitsAux_length fuel ((n + 1) / 10) k hf' hlo' hhi']

theorem digits10_length (n k : ℕ) (h1 : 10 ^ k ≤ n) (h2 : n < 10 ^ (k + 1)) :
    (digits10 n).length = k + 1 :=
  digitsAux_length n n k le_rfl h1 h2

/-! ## Decimal exponent lemmas -/

theorem expDown_spec : ∀ fuel (a : ℚ), 1 ≤ a → a < 10 ^ (fuel + 1) →
    (10 : ℚ) ^ expDown fuel a ≤ a ∧ a < 10 ^ (expDown fuel a + 1)
  | 0, a, h1, h2 => by
    constructor
    · simpa using h1
    · simpa using h2
  | fuel + 1, a, h1, h2 => by
    show (10 : ℚ) ^ (if a < 10 then 0 else expDown fuel (a / 10) + 1) ≤ a ∧
      a < 10 ^ ((if a < 10 then 0 else expDown fuel (a / 10) + 1) + 1)
    by_cases hlt : a < 10
    · rw [if_pos hlt]
      constructor
      · simpa using h1
      · simpa using hlt
    · rw [if_neg hlt]
      push_neg at hlt
      have h1' : 1 ≤ a / 10 := by
        rw [le_div_iff (by norm_num : (0 : ℚ) < 10)]
        linarith
      have h2' : a / 10 < 10 ^ (fuel + 1) := by
        rw [div_lt_iff (by norm_num : (0 : ℚ) < 10)]
        calc a < 10 ^ (fuel + 1 + 1) := h2
        _ = 10 ^ (fuel + 1) * 10 := pow_succ 10 (fuel + 1)
      obtain ⟨hlo, hhi⟩ := expDown_spec fuel (a / 10) h1' h2'
      constructor
      · rw [pow_succ]
        calc (10 : ℚ) ^ expDown fuel (a / 10) * 10 ≤ a / 10 * 10 := by linarith
        _ = a := div_mul_cancel₀ a (by norm_num)
      · rw [pow_succ]
        calc a = a / 10 * 10 := (div_mul_cancel₀ a (by norm_num)).symm
        _ < 10 ^ (expDown fuel (a / 10) + 1) * 10 := by linarith

theorem expUp_spec : ∀ fuel (a : ℚ), 0 < a → a < 1 → 1 ≤ a * 10 ^ (fuel + 1) →
    (10 : ℚ) ^ (-(expUp fuel a : ℤ)) ≤ a ∧ a < (10 : ℚ) ^ (-(expUp fuel a : ℤ) + 1)
  | 0, a, h0, h1, h2 => by
    rw [show expUp 0 a = 1 from rfl]
    constructor
    · rw [show (-((1 : ℕ) : ℤ)) = -1 by norm_num, zpow_neg, zpow_one,
        inv_le_iff_one_le_mul₀ (by norm_num : (0 : ℚ) < 10)]
      rw [pow_one] at h2
      linarith
    · rw [show (-((1 : ℕ) : ℤ) + 1) = 0 by norm_num, zpow_zero]
      exact h1
  | fuel + 1, a, h0, h1, h2 => by
    rw [show expUp (fuel + 1) a = if 1 ≤ a * 10 then 1 else expUp fuel (a * 10) + 1
      from rfl]
    by_cases hle : 1 ≤ a * 10
    · rw [if_pos hle]
      constructor
      · rw [show (-((1 : ℕ) : ℤ)) = -1 by norm_num, zpow_neg, zpow_one,
          inv_le_iff_one_le_mul₀ (by norm_num : (0 : ℚ) < 10)]
        linarith
      · rw [show (-((1 : ℕ) : ℤ) + 1) = 0 by norm_num, zpow_zero]
        exact h1
    · rw [if_neg hle]
      push_neg at hle
      obtain ⟨hlo, hhi⟩ := expUp_spec fuel (a * 10) (by linarith) hle
        (by calc (1 : ℚ) ≤ a * 10 ^ (fuel + 1 + 1) := h2
            _ = a * 10 * 10 ^ (fuel + 1) := by ring)
      have hcast : (-((expUp fuel (a * 10) + 1 : ℕ) : ℤ)) =
          -(expUp fuel (a * 10) : ℤ) - 1 := by push_cast; ring
      rw [hcast]
      constructor
      · rw [zpow_sub₀ (by norm_num : (10 : ℚ) ≠ 0), zpow_one,
          div_le_iff₀ (by norm_num : (0 : ℚ) < 10)]
        linarith
      · have hexp : (10 : ℚ) ^ (-(expUp fuel (a * 10) : ℤ) - 1 + 1) =
            (10 : ℚ) ^ (-(expUp fuel (a * 10) : ℤ) + 1) / 10 := by
          rw [show (-(expUp fuel (a * 10) : ℤ) - 1 + 1) = -(expUp fuel (a * 10) : ℤ)
            from by ring, zpow_add₀ (by norm_num : (10 : ℚ) ≠ 0), zpow_one]
          ring
        rw [hexp, lt_div_iff₀ (by norm_num : (0 : ℚ) < 10)]
        linarith

theorem qExp10_spec (a : ℚ) (h : 0 < a) :
    (10 : ℚ) ^ qExp10 a ≤ a ∧ a < (10 : ℚ) ^ (qExp10 a + 1) := by
  have hnumden : (a.num : ℚ) / (a.den : ℚ) = a := Rat.num_div_den a
  have hden1 : (1 : ℚ) ≤ (a.den : ℚ) := by
    have := a.pos
    exact_mod_cast this
  have hden0 : ((a.den : ℕ) : ℚ) ≠ 0 := by
    have := a.pos
    positivity
  have hnumq : (a.num : ℚ) = a * a.den := by
    calc (a.num : ℚ) = (a.num : ℚ) / a.den * a.den := (div_mul_cancel₀ _ hden0).symm
    _ = a * a.den := by rw [hnumden]
  rw [qExp10]
  by_cases h1 : 1 ≤ a
  · rw [if_pos h1]
    have hnum0 : 0 < a.num := Rat.num_pos.mpr h
    have hnumnat : ((a.num.toNat : ℕ) : ℚ) = (a.num : ℚ) := by
      exact_mod_cast congrArg (fun z : ℤ => (z : ℚ)) (Int.toNat_of_nonneg
        (le_of_lt hnum0))
    have hnum : a ≤ (a.num : ℚ) := by
      rw [hnumq]
      calc a = a * 1 := (mul_one a).symm
      _ ≤ a * a.den := by
          apply mul_le_mul_of_nonneg_left hden1 (le_of_lt h)
    have hltpow : ((a.num.toNat : ℕ) : ℚ) < 10 ^ a.num.toNat := by
      exact_mod_cast Nat.lt_pow_self (by norm_num : 1 < 10) a.num.toNat
    have hfuel : a < 10 ^ (a.num.toNat + 1) := by
      calc a ≤ (a.num : ℚ) := hnum
      _ = ((a.num.toNat : ℕ) : ℚ) := hnumnat.symm
      _ < 10 ^ a.num.toNat := hltpow
      _ ≤ 10 ^ (a.num.toNat + 1) := by
          apply pow_le_pow_right (by norm_num : (1 : ℚ) ≤ 10) (by omega)
    obtain ⟨hlo, hhi⟩ := expDown_spec a.num.toNat a h1 hfuel
    constructor
    · rw [zpow_natCast]
      exact hlo
    · rw [show ((expDown a.num.toNat a : ℕ) : ℤ) + 1 =
        ((expDown a.num.toNat a + 1 : ℕ) : ℤ) from by push_cast; ring,
        zpow_natCast]
      exact hhi
  · rw [if_neg h1]
    push_neg at h1
    have hnum0 : 0 < a.num := Rat.num_pos.mpr h
    have hnum1 : (1 : ℚ) ≤ a * a.den := by
      rw [← hnumq]
      exact_mod_cast hnum0
    have hdenpow : ((a.den : ℕ) : ℚ) < 10 ^ a.den := by
      exact_mod_cast Nat.lt_pow_self (by norm_num : 1 < 10) a.den
    have hfuel : 1 ≤ a * 10 ^ (a.den + 1) := by
      calc (1 : ℚ) ≤ a * a.den := hnum1
      _ ≤ a * 10 ^ a.den := by
          apply mul_le_mul_of_nonneg_left (le_of_lt hdenpow) (le_of_lt h)
      _ ≤ a * 10 ^ (a.den + 1) := by
          apply mul_le_mul_of_nonneg_left
            (pow_le_pow_right (by norm_num : (1 : ℚ) ≤ 10) (by omega)) (le_of_lt h)
    exact expUp_spec a.den a h h1 hfuel

theorem roundHalfEven_abs (q : ℚ) : |(roundHalfEven q : ℚ) - q| ≤ 1/2 := by
  rw [abs_le]
  have h1 := roundHalfEven_ge q
  have h2 := roundHalfEven_le q
  constructor <;> linarith

theorem e6parts_bounds (q : ℚ) (h : q ≠ 0) :
    10 ^ 6 ≤ (e6parts q).1 ∧ (e6parts q).1 < 10 ^ 7 := by
  have ha : 0 < |q| := abs_pos.mpr h
  obtain ⟨hlo, hhi⟩ := qExp10_spec |q| ha
  have hpow : (0 : ℚ) < (10 : ℚ) ^ (qExp10 |q| - 6) := zpow_pos (by norm_num) _
  have hz6 : ((10 : ℚ) ^ (6 : ℕ)) * (10 : ℚ) ^ (qExp10 |q| - 6) =
      (10 : ℚ) ^ qExp10 |q| := by
    rw [← zpow_natCast (10 : ℚ) 6, ← zpow_add₀ (by norm_num : (10 : ℚ) ≠ 0)]
    congr 1
    push_cast
    ring
  have hz7 : ((10 : ℚ) ^ (7 : ℕ)) * (10 : ℚ) ^ (qExp10 |q| - 6) =
      (10 : ℚ) ^ (qExp10 |q| + 1) := by
    rw [← zpow_natCast (10 : ℚ) 7, ← zpow_add₀ (by norm_num : (10 : ℚ) ≠ 0)]
    congr 1
    push_cast
    ring
  have hs_lo : ((10 : ℚ) ^ (6 : ℕ)) ≤ |q| / (10 : ℚ) ^ (qExp10 |q| - 6) := by
    rw [le_div_iff₀ hpow, hz6]
    exact hlo
  have hs_hi : |q| / (10 : ℚ) ^ (qExp10 |q| - 6) < (10 : ℚ) ^ (7 : ℕ) := by
    rw [div_lt_iff₀ hpow, hz7]
    exact hhi
  have hm_ge := roundHalfEven_ge (|q| / (10 : ℚ) ^ (qExp10 |q| - 6))
  have hm_le := roundHalfEven_le (|q| / (10 : ℚ) ^ (qExp10 |q| - 6))
  have hm_lo : (10 : ℤ) ^ 6 ≤ roundHalfEven (|q| / (10 : ℚ) ^ (qExp10 |q| - 6)) := by
    have hq1 : ((10 ^ 6 - 1 : ℤ) : ℚ) <
        (roundHalfEven (|q| / (10 : ℚ) ^ (qExp10 |q| - 6)) : ℚ) := by
      push_cast
      norm_num at hs_lo ⊢
      linarith
    have h2 : (10 ^ 6 - 1 : ℤ) <
        roundHalfEven (|q| / (10 : ℚ) ^ (qExp10 |q| - 6)) := by
      exact_mod_cast hq1
    omega
  have hm_hi : roundHalfEven (|q| / (10 : ℚ) ^ (qExp10 |q| - 6)) ≤ (10 : ℤ) ^ 7 := by
    have hq1 : (roundHalfEven (|q| / (10 : ℚ) ^ (qExp10 |q| - 6)) : ℚ) <
        ((10 ^ 7 + 1 : ℤ) : ℚ) := by
      push_cast
      norm_num at hs_hi ⊢
      linarith
    have h2 : roundHalfEven (|q| / (10 : ℚ) ^ (qExp10 |q| - 6)) <
        (10 ^ 7 + 1 : ℤ) := by
      exact_mod_cast hq1
    omega
  simp only [e6parts]
  by_cases hm : roundHalfEven (|q| / (10 : ℚ) ^ (qExp10 |q| - 6)) = 10 ^ 7
  · rw [if_pos hm]
    norm_num
  · rw [if_neg hm]
    exact ⟨hm_lo, lt_of_le_of_ne hm_hi hm⟩

theorem e6parts_val (q : ℚ) (h : q ≠ 0) :
    ((e6parts q).1 : ℚ) * (10 : ℚ) ^ ((e6parts q).2 - 6) =
      (roundHalfEven (|q| / (10 : ℚ) ^ (qExp10 |q| - 6)) : ℚ) *
        (10 : ℚ) ^ (qExp10 |q| - 6) := by
  simp only [e6parts]
  by_cases hm : roundHalfEven (|q| / (10 : ℚ) ^ (qExp10 |q| - 6)) = 10 ^ 7
  · rw [if_pos hm, hm]
    push_cast
    rw [show (qExp10 |q| + 1 - 6 : ℤ) = (qExp10 |q| - 6) + 1 from by ring,
      zpow_add₀ (by norm_num : (10 : ℚ) ≠ 0), zpow_one]
    ring
  · rw [if_neg hm]

theorem E6round_mag (q : ℚ) :
    ((e6parts q).1 : ℚ) / 10 ^ 6 * (10 : ℚ) ^ (e6parts q).2 =
      ((e6parts q).1 : ℚ) * (10 : ℚ) ^ ((e6parts q).2 - 6) := by
  rw [zpow_sub₀ (by norm_num : (10 : ℚ) ≠ 0),
    show ((6 : ℤ)) = ((6 : ℕ) : ℤ) from rfl, zpow_natCast]
  ring

theorem E6round_err (q : ℚ) : |E6round q - q| ≤ |q| / (2 * 10 ^ 6) := by
  by_cases h : q = 0
  · subst h
    simp [E6round]
  · have ha : 0 < |q| := abs_pos.mpr h
    obtain ⟨hlo, hhi⟩ := qExp10_spec |q| ha
    have hpow : (0 : ℚ) < (10 : ℚ) ^ (qExp10 |q| - 6) := zpow_pos (by norm_num) _
    have hkey : ∀ dd : ℚ, dd = ((e6parts q).1 : ℚ) *
          (10 : ℚ) ^ ((e6parts q).2 - 6) - |q| →
        |dd| ≤ |q| / (2 * 10 ^ 6) := by
      intro dd hdd
      rw [hdd, e6parts_val q h]
      set sc := |q| / (10 : ℚ) ^ (qExp10 |q| - 6) with hsc
      have h1 : (roundHalfEven sc : ℚ) * (10 : ℚ) ^ (qExp10 |q| - 6) - |q| =
          ((roundHalfEven sc : ℚ) - sc) * (10 : ℚ) ^ (qExp10 |q| - 6) := by
        rw [hsc]
        field_simp
      rw [h1, abs_mul, abs_of_pos hpow]
      have h2 := roundHalfEven_abs sc
      have h3 : (10 : ℚ) ^ (qExp10 |q| - 6) ≤ |q| / 10 ^ 6 := by
        rw [zpow_sub₀ (by norm_num : (10 : ℚ) ≠ 0),
          show ((6 : ℤ)) = ((6 : ℕ) : ℤ) from rfl, zpow_natCast]
        gcongr
      calc |(roundHalfEven sc : ℚ) - sc| * (10 : ℚ) ^ (qExp10 |q| - 6) ≤
          (1/2) * (10 : ℚ) ^ (qExp10 |q| - 6) := by
            apply mul_le_mul_of_nonneg_right h2 (le_of_lt hpow)
      _ ≤ (1/2) * (|q| / 10 ^ 6) := by
            apply mul_le_mul_of_nonneg_left h3 (by norm_num)
      _ = |q| / (2 * 10 ^ 6) := by ring
    simp only [E6round, if_neg h]
    rw [E6round_mag]
    by_cases hq : q < 0
    · rw [if_pos hq]
      have habs : |q| = -q := abs_of_neg hq
      rw [show -(((e6parts q).1 : ℚ) * (10 : ℚ) ^ ((e6parts q).2 - 6)) - q =
          -((((e6parts q).1 : ℚ) * (10 : ℚ) ^ ((e6parts q).2 - 6)) - |q|) from by
        rw [habs]; ring, abs_neg]
      exact hkey _ rfl
    · rw [if_neg hq]
      have habs : |q| = q := abs_of_nonneg (le_of_not_lt hq)
      rw [show (((e6parts q).1 : ℚ) * (10 : ℚ) ^ ((e6parts q).2 - 6)) - q =
          (((e6parts q).1 : ℚ) * (10 : ℚ) ^ ((e6parts q).2 - 6)) - |q| from by
        rw [habs]]
      exact hkey _ rfl

/-! ## Character-level lemmas for `%.6E` formatting -/

theorem digitChar_facts (d : ℕ) (h : d < 10) :
    charDigit (Nat.digitChar d) = d ∧ (Nat.digitChar d).isDigit = true ∧
    Nat.digitChar d ≠ '.' ∧ Nat.digitChar d ≠ 'E' ∧ Nat.digitChar d ≠ '-' ∧
    Nat.digitChar d ≠ ' ' ∧ Nat.digitChar d ≠ '#' := by
  interval_cases d <;> exact ⟨rfl, rfl, by decide, by decide, by decide,
    by decide, by decide⟩

theorem digitChars_mem (n : ℕ) : ∀ c ∈ digitChars n, ∃ d, d < 10 ∧ c = Nat.digitChar d := by
  intro c hc
  rw [digitChars] at hc
  obtain ⟨d, hd, rfl⟩ := List.mem_map.mp hc
  exact ⟨d, digits10_lt_ten n d (List.mem_reverse.mp hd), rfl⟩

theorem digitChars_props (n : ℕ) : ∀ c ∈ digitChars n,
    c.isDigit = true ∧ c ≠ '.' ∧ c ≠ 'E' ∧ c ≠ '-' ∧ c ≠ ' ' ∧ c ≠ '#' := by
  intro c hc
  obtain ⟨d, hd, rfl⟩ := digitChars_mem n c hc
  have hf := digitChar_facts d hd
  exact ⟨hf.2.1, hf.2.2.1, hf.2.2.2.1, hf.2.2.2.2.1, hf.2.2.2.2.2.1,
    hf.2.2.2.2.2.2⟩

theorem natChars_props (n : ℕ) : ∀ c ∈ natChars n,
    c.isDigit = true ∧ c ≠ '.' ∧ c ≠ 'E' ∧ c ≠ '-' ∧ c ≠ ' ' ∧ c ≠ '#' := by
  intro c hc
  rw [natChars] at hc
  by_cases h : n = 0
  · rw [if_pos h] at hc
    rcases List.mem_cons.mp hc with rfl | hc2
    · exact ⟨rfl, by decide, by decide, by decide, by decide, by decide⟩
    · cases hc2
  · rw [if_neg h] at hc
    exact digitChars_props n c hc

theorem digitChars_length (n k : ℕ) (h1 : 10 ^ k ≤ n) (h2 : n < 10 ^ (k + 1)) :
    (digitChars n).length = k + 1 := by
  rw [digitChars, List.length_map, List.length_reverse, digits10_length n k h1 h2]

theorem foldl_digitChar (ds : List ℕ) : ∀ acc : ℕ, (∀ d ∈ ds, d < 10) →
    ((ds.map Nat.digitChar).foldl (fun a c => a * 10 + charDigit c) acc) =
      ds.foldl (fun a d => a * 10 + d) acc := by
  induction ds with
  | nil => intro acc _; rfl
  | cons d t ih =>
    intro acc hall
    rw [List.map_cons, List.foldl_cons, List.foldl_cons,
      (digitChar_facts d (hall d (List.mem_cons_self _ _))).1]
    exact ih _ (fun x hx => hall x (List.mem_cons_of_mem _ hx))

theorem foldl_reverse_digits (ds : List ℕ) : ∀ acc : ℕ,
    (ds.reverse).foldl (fun a d => a * 10 + d) acc =
      acc * 10 ^ ds.length + ofDigitsLE ds := by
  induction ds with
  | nil => intro acc; simp [ofDigitsLE]
  | cons d t ih =>
    intro acc
    rw [List.reverse_cons, List.foldl_append, ih acc]
    show (acc * 10 ^ t.length + ofDigitsLE t) * 10 + d =
      acc * 10 ^ (t.length + 1) + ofDigitsLE (d :: t)
    rw [show ofDigitsLE (d :: t) = d + 10 * ofDigitsLE t from rfl, pow_succ]
    ring

theorem numOfChars_digitChars (n : ℕ) : numOfChars (digitChars n) = n := by
  rw [numOfChars, digitChars,
    foldl_digitChar _ 0 (fun d hd => digits10_lt_ten n d (List.mem_reverse.mp hd)),
    foldl_reverse_digits]
  rw [ofDigitsLE_digits10]
  simp

theorem numOfChars_natChars (n : ℕ) : numOfChars (natChars n) = n := by
  rw [natChars]
  by_cases h : n = 0
  · rw [if_pos h, h]
    rfl
  · rw [if_neg h]
    exact numOfChars_digitChars n

theorem numOfChars_pad (l : List Char) : numOfChars ('0' :: l) = numOfChars l := rfl

theorem splitAtE_append : ∀ (l1 l2 : List Char), 'E' ∉ l1 →
    splitAtE (l1 ++ 'E' :: l2) = (l1, l2)
  | [], l2, _ => by
    show splitAtE ('E' :: l2) = ([], l2)
    simp [splitAtE]
  | c :: t, l2, h => by
    have hc : c ≠ 'E' := fun hce => h (hce ▸ List.mem_cons_self _ _)
    show splitAtE (c :: (t ++ 'E' :: l2)) = (c :: t, l2)
    simp only [splitAtE, if_neg hc]
    rw [splitAtE_append t l2 (fun hm => h (List.mem_cons_of_mem _ hm))]

theorem parseMantissaChars_cons (c : Char) (l : List Char) :
    parseMantissaChars (c :: l) =
      if c = '-' then -(parseUMant l) else parseUMant (c :: l) := rfl

theorem parseExpChars_cons (c : Char) (l : List Char) :
    parseExpChars (c :: l) =
      if c = '-' then -(numOfChars l : ℤ)
      else if c = '+' then (numOfChars l : ℤ)
      else (numOfChars (c :: l) : ℤ) := rfl

theorem parseUMant_mant (d0 : Char) (rest : List Char)
    (hd0 : d0 ≠ '.') (hrest : ∀ c ∈ rest, c ≠ '.') :
    parseUMant (d0 :: '.' :: rest) =
      (numOfChars (d0 :: rest) : ℚ) / 10 ^ rest.length := by
  rw [parseUMant]
  have hfilter : (d0 :: '.' :: rest).filter (fun c => decide (c ≠ '.')) =
      d0 :: rest := by
    rw [List.filter_cons_of_pos (by simp [hd0]),
      List.filter_cons_of_neg (by simp)]
    congr 1
    exact List.filter_eq_self.mpr (fun c hc => by simp [hrest c hc])
  have hdrop : (d0 :: '.' :: rest).dropWhile (fun c => decide (c ≠ '.')) =
      '.' :: rest := by
    rw [List.dropWhile_cons_of_pos (by simp [hd0]),
      List.dropWhile_cons_of_neg (by simp)]
  rw [hfilter, hdrop]
  simp

theorem parseExp_rendered (e : ℤ) :
    parseExpChars ((if e < 0 then ['-'] else ['+']) ++
      (if e.natAbs < 10 then '0' :: natChars e.natAbs else natChars e.natAbs)) =
      e := by
  have hnum : numOfChars (if e.natAbs < 10 then '0' :: natChars e.natAbs
      else natChars e.natAbs) = e.natAbs := by
    by_cases hp : e.natAbs < 10
    · rw [if_pos hp, numOfChars_pad, numOfChars_natChars]
    · rw [if_neg hp, numOfChars_natChars]
  by_cases he : e < 0
  · rw [if_pos he, List.cons_append, List.nil_append, parseExpChars_cons,
      if_pos rfl, hnum]
    omega
  · rw [if_neg he, List.cons_append, List.nil_append, parseExpChars_cons,
      if_neg (by decide), if_pos rfl, hnum]
    omega

theorem formatE6chars_shape (q : ℚ) (h : q ≠ 0) :
    ∃ d0 rest,
      digitChars (e6parts q).1.toNat = d0 :: rest ∧
      rest.length = 6 ∧
      formatE6chars q =
        ((if q < 0 then ['-'] else []) ++ (d0 :: '.' :: rest)) ++
          'E' :: ((if (e6parts q).2 < 0 then ['-'] else ['+']) ++
            (if (e6parts q).2.natAbs < 10 then '0' :: natChars (e6parts q).2.natAbs
             else natChars (e6parts q).2.natAbs)) := by
  obtain ⟨hm_lo, hm_hi⟩ := e6parts_bounds q h
  have htn_lo : 10 ^ 6 ≤ (e6parts q).1.toNat := by omega
  have htn_hi : (e6parts q).1.toNat < 10 ^ 7 := by omega
  have hlen : (digitChars (e6parts q).1.toNat).length = 7 :=
    digitChars_length _ 6 htn_lo htn_hi
  cases hds : digitChars (e6parts q).1.toNat with
  | nil =>
    rw [hds] at hlen
    cases hlen
  | cons d0 rest =>
    rw [hds] at hlen
    refine ⟨d0, rest, rfl, by simpa using hlen, ?_⟩
    rw [formatE6chars, if_neg h]
    simp only [hds]

theorem mantissa_no_dot (q : ℚ) (d0 : Char) (rest : List Char)
    (hds : digitChars (e6parts q).1.toNat = d0 :: rest) :
    d0 ≠ '.' ∧ ∀ c ∈ rest, c ≠ '.' := by
  have hprops := digitChars_props (e6parts q).1.toNat
  rw [hds] at hprops
  exact ⟨(hprops d0 (List.mem_cons_self _ _)).2.1,
    fun c hc => (hprops c (List.mem_cons_of_mem _ hc)).2.1⟩

theorem parse_formatE6 (q : ℚ) : parseE6chars (formatE6chars q) = E6round q := by
  by_cases h : q = 0
  · subst h
    decide
  · obtain ⟨d0, rest, hds, hlen6, hshape⟩ := formatE6chars_shape q h
    obtain ⟨hd0dot, hrestdot⟩ := mantissa_no_dot q d0 rest hds
    have hprops := digitChars_props (e6parts q).1.toNat
    rw [hds] at hprops
    have hnoE : 'E' ∉ (if q < 0 then ['-'] else []) ++ (d0 :: '.' :: rest) := by
      intro hmem
      rcases List.mem_append.mp hmem with h1 | h2
      · by_cases hq : q < 0
        · rw [if_pos hq] at h1
          rcases List.mem_cons.mp h1 with he | he
          · cases he
          · cases he
        · rw [if_neg hq] at h1
          cases h1
      · rcases List.mem_cons.mp h2 with he | he2
        · exact (hprops d0 (List.mem_cons_self _ _)).2.2.1 he.symm
        · rcases List.mem_cons.mp he2 with he | he3
          · cases he
          · exact (hprops _ (List.mem_cons_of_mem _ he3)).2.2.1 rfl
    have hmantval : parseUMant (d0 :: '.' :: rest) =
        (((e6parts q).1 : ℤ) : ℚ) / 10 ^ 6 := by
      rw [parseUMant_mant d0 rest hd0dot hrestdot, hlen6, ← hds,
        numOfChars_digitChars]
      congr 1
      have := e6parts_bounds q h
      have h0 : 0 ≤ (e6parts q).1 := by omega
      exact_mod_cast congrArg (fun z : ℤ => (z : ℚ)) (Int.toNat_of_nonneg h0)
    rw [hshape, parseE6chars]
    rw [splitAtE_append _ _ hnoE, parseExp_rendered]
    by_cases hq : q < 0
    · rw [if_pos hq, List.cons_append, List.nil_append, parseMantissaChars_cons,
        if_pos rfl, hmantval]
      rw [E6round, if_neg h, if_pos hq, E6round_mag, zpow_sub₀
        (by norm_num : (10 : ℚ) ≠ 0), show ((6 : ℤ)) = ((6 : ℕ) : ℤ) from rfl,
        zpow_natCast]
      ring
    · rw [if_neg hq, List.nil_append, parseMantissaChars_cons,
        if_neg (hprops d0 (List.mem_cons_self _ _)).2.2.2.1, hmantval]
      rw [E6round, if_neg h, if_neg hq, E6round_mag, zpow_sub₀
        (by norm_num : (10 : ℚ) ≠ 0), show ((6 : ℤ)) = ((6 : ℕ) : ℤ) from rfl,
        zpow_natCast]

theorem mantissa7 (q : ℚ) : mantissaDigitCount (formatE6chars q) = 7 := by
  by_cases h : q = 0
  · subst h
    decide
  · obtain ⟨d0, rest, hds, hlen6, hshape⟩ := formatE6chars_shape q h
    have hprops := digitChars_props (e6parts q).1.toNat
    rw [hds] at hprops
    have hnoE : 'E' ∉ (if q < 0 then ['-'] else []) ++ (d0 :: '.' :: rest) := by
      intro hmem
      rcases List.mem_append.mp hmem with h1 | h2
      · by_cases hq : q < 0
        · rw [if_pos hq] at h1
          rcases List.mem_cons.mp h1 with he | he
          · cases he
          · cases he
        · rw [if_neg hq] at h1
          cases h1
      · rcases List.mem_cons.mp h2 with he | he2
        · exact (hprops d0 (List.mem_cons_self _ _)).2.2.1 he.symm
        · rcases List.mem_cons.mp he2 with he | he3
          · cases he
          · exact (hprops _ (List.mem_cons_of_mem _ he3)).2.2.1 rfl
    have hfilter : (d0 :: '.' :: rest).filter (fun c => c.isDigit) = d0 :: rest := by
      rw [List.filter_cons_of_pos (hprops d0 (List.mem_cons_self _ _)).1,
        List.filter_cons_of_neg (by decide)]
      congr 1
      exact List.filter_eq_self.mpr
        (fun c hc => (hprops c (List.mem_cons_of_mem _ hc)).1)
    rw [mantissaDigitCount, hshape, splitAtE_append _ _ hnoE]
    by_cases hq : q < 0
    · rw [if_pos hq, List.cons_append, List.nil_append,
        List.filter_cons_of_neg (by decide), hfilter, List.length_cons, hlen6]
    · rw [if_neg hq, List.nil_append, hfilter, List.length_cons, hlen6]

/-- C8 (amended): the base writer emits, in order, the `#NTIMES` line, the
`#N<FIRSTCOL>` line (`WAVE` for spectra, `VEL` for tgas/eden), the `#TIMES[d]`
line with space-joined times, the type-specific comment line, then one
space-delimited body line per table row with every numeric value rendered in
`%.6E` scientific notation — which carries seven significant digits (six
digits after the decimal point), not six. -/
theorem C8_amended (t : ExporterType) (times : List ℚ) (table : List (List ℚ))
    (h : t = .spectra ∨ t = .tgas ∨ t = .eden) :
    base_write t times table =
      ("#NTIMES: " ++ toString times.length) ::
      ("#N" ++ first_column_name t ++ ": " ++ toString table.length) ::
      ("#TIMES[d]: " ++ String.intercalate " " (times.map toString)) ::
      column_description t ::
      table.map (fun row => String.mk (joinSpace (row.map formatE6chars))) ∧
    (table.all (fun row => row.all (fun q =>
      mantissaDigitCount (formatE6chars q) == 7)) = true) := by
  constructor
  · rfl
  · rw [List.all_eq_true]
    intro row hrow
    rw [List.all_eq_true]
    intro q hq
    rw [beq_iff_eq]
    exact mantissa7 q

/-- C8 (counterexample): the tgas writer renders the value `1/3` as
`3.333333E-01`, whose mantissa carries seven significant digits, not six. -/
theorem C8_counterexample :
    (base_write .tgas [1] [[1/3]]).get? 4 = some "3.333333E-01" ∧
    mantissaDigitCount ("3.333333E-01".toList) = 7 ∧ ¬ (7 = 6) := by
  refine ⟨?_, by decide, by decide⟩
  decide

/-- C8 witness: a concrete one-row tgas table. -/
theorem C8_witness :
    base_write .tgas [1] [[2]] =
      ("#NTIMES: " ++ toString (1 : ℕ)) ::
      ("#NVEL" ++ ": " ++ toString (1 : ℕ)) ::
      ("#TIMES[d]: " ++ String.intercalate " " ([(1 : ℚ)].map toString)) ::
      column_description .tgas ::
      [[(2 : ℚ)]].map (fun row => String.mk (joinSpace (row.map formatE6chars))) ∧
    ([[(2 : ℚ)]].all (fun row => row.all (fun q =>
      mantissaDigitCount (formatE6chars q) == 7)) = true) :=
  ⟨((C8_amended .tgas [1] [[2]] (Or.inr (Or.inl rfl))).1).trans (by decide),
   (C8_amended .tgas [1] [[2]] (Or.inr (Or.inl rfl))).2⟩

/-! ## Whitespace joining/splitting lemmas (the round-trip of `to_csv` lines) -/

theorem splitAux_no_space (c : List Char) : ∀ (cur tail : List Char),
    (∀ ch ∈ c, ch ≠ ' ') →
    splitOnSpacesAux cur (c ++ tail) = splitOnSpacesAux (c.reverse ++ cur) tail := by
  induction c with
  | nil =>
    intro cur tail _
    rfl
  | cons ch t ih =>
    intro cur tail hall
    rw [List.cons_append,
      show splitOnSpacesAux cur (ch :: (t ++ tail)) =
        if ch = ' ' then cur.reverse :: splitOnSpacesAux [] (t ++ tail)
        else splitOnSpacesAux (ch :: cur) (t ++ tail) from rfl,
      if_neg (hall ch (List.mem_cons_self _ _)),
      ih (ch :: cur) tail (fun x hx => hall x (List.mem_cons_of_mem _ hx))]
    congr 1
    simp

theorem splitOnSpaces_join : ∀ (c0 : List Char) (cs : List (List Char))
    (cur : List Char), (∀ c ∈ c0 :: cs, ∀ ch ∈ c, ch ≠ ' ') →
    splitOnSpacesAux cur (joinSpace (c0 :: cs)) = (cur.reverse ++ c0) :: cs
  | c0, [], cur, hall => by
    have hs := splitAux_no_space c0 cur [] (hall c0 (List.mem_cons_self _ _))
    rw [List.append_nil] at hs
    rw [show joinSpace [c0] = c0 from rfl, hs]
    show [(c0.reverse ++ cur).reverse] = [cur.reverse ++ c0]
    simp
  | c0, c1 :: cs', cur, hall => by
    rw [show joinSpace (c0 :: c1 :: cs') = c0 ++ ' ' :: joinSpace (c1 :: cs')
      from rfl,
      splitAux_no_space c0 cur _ (hall c0 (List.mem_cons_self _ _)),
      show splitOnSpacesAux (c0.reverse ++ cur) (' ' :: joinSpace (c1 :: cs')) =
        (c0.reverse ++ cur).reverse :: splitOnSpacesAux [] (joinSpace (c1 :: cs'))
      from by rw [show splitOnSpacesAux (c0.reverse ++ cur)
          (' ' :: joinSpace (c1 :: cs')) =
          if (' ' : Char) = ' ' then (c0.reverse ++ cur).reverse ::
            splitOnSpacesAux [] (joinSpace (c1 :: cs'))
          else splitOnSpacesAux (' ' :: (c0.reverse ++ cur))
            (joinSpace (c1 :: cs')) from rfl, if_pos rfl],
      splitOnSpaces_join c1 cs' [] (fun c hc => hall c (List.mem_cons_of_mem _ hc))]
    simp

theorem splitOnSpaces_joinSpace (c0 : List Char) (cs : List (List Char))
    (hall : ∀ c ∈ c0 :: cs, ∀ ch ∈ c, ch ≠ ' ') :
    splitOnSpaces (joinSpace (c0 :: cs)) = c0 :: cs := by
  rw [splitOnSpaces, splitOnSpaces_join c0 cs [] hall]
  rfl

/-! ## Character classes of formatted values -/

theorem formatE6chars_no_space (q : ℚ) : ∀ c ∈ formatE6chars q, c ≠ ' ' := by
  by_cases h : q = 0
  · subst h
    intro c hc
    fin_cases hc <;> decide
  · obtain ⟨d0, rest, hds, _, hshape⟩ := formatE6chars_shape q h
    have hprops := digitChars_props (e6parts q).1.toNat
    rw [hds] at hprops
    intro c hc
    rw [hshape] at hc
    rcases List.mem_append.mp hc with h1 | h2
    · rcases List.mem_append.mp h1 with h3 | h4
      · by_cases hq : q < 0
        · rw [if_pos hq] at h3
          rcases List.mem_cons.mp h3 with rfl | h5
          · decide
          · cases h5
        · rw [if_neg hq] at h3
          cases h3
      · rcases List.mem_cons.mp h4 with rfl | h5
        · exact (hprops c (List.mem_cons_self _ _)).2.2.2.2.1
        · rcases List.mem_cons.mp h5 with rfl | h6
          · decide
          · exact (hprops c (List.mem_cons_of_mem _ h6)).2.2.2.2.1
    · rcases List.mem_cons.mp h2 with rfl | h3
      · decide
      · rcases List.mem_append.mp h3 with h4 | h5
        · by_cases he : (e6parts q).2 < 0
          · rw [if_pos he] at h4
            rcases List.mem_cons.mp h4 with rfl | h6
            · decide
            · cases h6
          · rw [if_neg he] at h4
            rcases List.mem_cons.mp h4 with rfl | h6
            · decide
            · cases h6
        · by_cases hp : (e6parts q).2.natAbs < 10
          · rw [if_pos hp] at h5
            rcases List.mem_cons.mp h5 with rfl | h6
            · decide
            · exact (natChars_props _ c h6).2.2.2.2.1
          · rw [if_neg hp] at h5
            exact (natChars_props _ c h5).2.2.2.2.1

theorem formatE6chars_ne_nil (q : ℚ) : formatE6chars q ≠ [] := by
  by_cases h : q = 0
  · subst h
    decide
  · obtain ⟨d0, rest, _, _, hshape⟩ := formatE6chars_shape q h
    rw [hshape]
    by_cases hq : q < 0 <;> simp [hq]

theorem formatE6chars_head_ne_hash (q : ℚ) :
    ∀ c, (formatE6chars q).head? = some c → c ≠ '#' := by
  by_cases h : q = 0
  · subst h
    intro c hc
    have : c = '0' := by
      have h2 : some '0' = some c := hc ▸ rfl
      exact (Option.some.inj h2).symm
    subst this
    decide
  · obtain ⟨d0, rest, hds, _, hshape⟩ := formatE6chars_shape q h
    have hprops := digitChars_props (e6parts q).1.toNat
    rw [hds] at hprops
    intro c hc
    rw [hshape] at hc
    by_cases hq : q < 0
    · rw [if_pos hq] at hc
      have : c = '-' := by
        have h2 : some '-' = some c := hc ▸ rfl
        exact (Option.some.inj h2).symm
      subst this
      decide
    · rw [if_neg hq] at hc
      have : c = d0 := by
        have h2 : some d0 = some c := hc ▸ rfl
        exact (Option.some.inj h2).symm
      subst this
      exact (hprops c (List.mem_cons_self _ _)).2.2.2.2.2

/-! ## Header/body classification of written lines -/

theorem isHeaderLine_mk_false (l : List Char)
    (h : ∀ c, l.head? = some c → c ≠ '#') : isHeaderLine (String.mk l) = false := by
  cases l with
  | nil => rfl
  | cons c t =>
    have hc := h c rfl
    unfold isHeaderLine
    split
    · rename_i xs heq
      have heq' : c :: t = '#' :: xs := heq
      injection heq' with h1 h2
      exact absurd h1 hc
    · rfl

theorem joinSpace_head? (c0 : List Char) (cs : List (List Char)) (h0 : c0 ≠ []) :
    (joinSpace (c0 :: cs)).head? = c0.head? := by
  cases cs with
  | nil => rfl
  | cons c1 cs' =>
    rw [show joinSpace (c0 :: c1 :: cs') = c0 ++ ' ' :: joinSpace (c1 :: cs')
      from rfl]
    cases c0 with
    | nil => exact absurd rfl h0
    | cons ch t => rfl

theorem isHeaderLine_csvRowLine (row : List ℚ) :
    isHeaderLine (csvRowLine row) = false := by
  rw [csvRowLine]
  apply isHeaderLine_mk_false
  intro c hc
  cases row with
  | nil => cases hc
  | cons q qs =>
    rw [List.map_cons, joinSpace_head? _ _ (formatE6chars_ne_nil q)] at hc
    exact formatE6chars_head_ne_hash q c hc

/-! ## Parsing a written file body -/

theorem parseLine_csvRowLine (row : List ℚ) (hne : row ≠ []) :
    (splitOnSpaces (csvRowLine row).toList).map parseE6chars = row.map E6round := by
  cases row with
  | nil => exact absurd rfl hne
  | cons q qs =>
    rw [csvRowLine,
      show (String.mk (joinSpace ((q :: qs).map formatE6chars))).toList =
        joinSpace ((q :: qs).map formatE6chars) from rfl,
      List.map_cons,
      splitOnSpaces_joinSpace (formatE6chars q) (qs.map formatE6chars) (by
        intro c hc ch hch
        rcases List.mem_cons.mp hc with rfl | h2
        · exact formatE6chars_no_space q ch hch
        · obtain ⟨x, _, rfl⟩ := List.mem_map.mp h2
          exact formatE6chars_no_space x ch hch),
      ← List.map_cons formatE6chars q qs, List.map_map]
    exact List.map_congr_left (fun x _ => parse_formatE6 x)

theorem parseBody_base_write (t : ExporterType) (times : List ℚ)
    (table : List (List ℚ)) (hrows : ∀ row ∈ table, row ≠ [])
    (hdesc : isHeaderLine (column_description t) = true) :
    parseBody (base_write t times table) = table.map (List.map E6round) := by
  rw [parseBody, base_write]
  rw [List.filter_cons_of_neg (by
      simp [show isHeaderLine ("#NTIMES: " ++ toString times.length) = true
        from rfl]),
    List.filter_cons_of_neg (by
      simp [show isHeaderLine ("#N" ++ first_column_name t ++ ": " ++
        toString table.length) = true from rfl]),
    List.filter_cons_of_neg (by
      simp [show isHeaderLine ("#TIMES[d]: " ++ times_str times) = true
        from rfl]),
    List.filter_cons_of_neg (by simp [hdesc])]
  rw [List.filter_eq_self.mpr (by
    intro l hl
    obtain ⟨row, _, rfl⟩ := List.mem_map.mp hl
    simp [isHeaderLine_csvRowLine])]
  rw [List.map_map]
  exact List.map_congr_left (fun row hrow => parseLine_csvRowLine row (hrows row hrow))

theorem zipWith_cons_ne_nil : ∀ (A : List ℚ) (B : List (List ℚ)),
    ∀ row ∈ List.zipWith List.cons A B, row ≠ []
  | [], _, _, hrow => by cases hrow
  | _ :: _, [], _, hrow => by cases hrow
  | a :: A', b :: B', row, hrow => by
    rcases List.mem_cons.mp hrow with rfl | h2
    · exact List.cons_ne_nil a b
    · exact zipWith_cons_ne_nil A' B' row h2

theorem spectra_table_rows (s0 : Simulation) (rest : List Simulation)
    (hwf : simsWellFormed (s0 :: rest) = true) :
    (spectra_output_table (s0 :: rest)).map (List.map E6round) =
      (List.range s0.wavelength.length).map (fun i =>
        E6round (s0.wavelength.getD i 0) ::
        (s0 :: rest).map (fun s => E6round (s.luminosity_density_lambda.getD i 0))) := by
  have hall := simsWF_unpack hwf
  have hlen0 : s0.luminosity_density_lambda.length = s0.wavelength.length :=
    (hall s0 (List.mem_cons_self _ _)).2.2
  rw [show spectra_output_table (s0 :: rest) =
      List.zipWith List.cons s0.wavelength
        (colsToRows ((s0 :: rest).map (·.luminosity_density_lambda))) from rfl,
    show colsToRows ((s0 :: rest).map (·.luminosity_density_lambda)) =
      (List.range s0.luminosity_density_lambda.length).map (fun i =>
        ((s0 :: rest).map (·.luminosity_density_lambda)).map (fun c => c.getD i 0))
      from rfl, hlen0]
  apply List.ext
  intro i
  by_cases hi : i < s0.wavelength.length
  · rw [List.get?_map, List.get?_zipWith', List.get?_map, List.get?_map,
      List.get?_range hi, List.get?_eq_get hi]
    show some (List.map E6round (s0.wavelength.get ⟨i, hi⟩ ::
      ((s0 :: rest).map (·.luminosity_density_lambda)).map (fun c => c.getD i 0))) =
      some (E6round (s0.wavelength.getD i 0) ::
        (s0 :: rest).map (fun s => E6round (s.luminosity_density_lambda.getD i 0)))
    rw [List.map_cons, List.map_map, List.map_map, List.getD_eq_get _ _ hi]
    rfl
  · rw [List.get?_eq_none.mpr, List.get?_eq_none.mpr]
    · rw [List.length_map, List.length_range]
      omega
    · rw [List.length_map, List.length_zipWith, List.length_map,
        List.length_range]
      omega

theorem zip_map_self_fst {α β : Type} (f : α → β) :
    ∀ (l : List α), ∀ p ∈ (l.map f).zip l, p.1 = f p.2
  | [], p, hp => by cases hp
  | x :: t, p, hp => by
    rcases List.mem_cons.mp hp with rfl | h2
    · rfl
    · exact zip_map_self_fst f t p h2

theorem closeTableB_map (o : List (List ℚ)) :
    closeTableB (o.map (List.map E6round)) o = true := by
  rw [closeTableB, Bool.and_eq_true]
  constructor
  · rw [List.length_map]
    exact beq_self_eq_true _
  · rw [List.all_eq_true]
    intro rs hrs
    have h1 : rs.1 = List.map E6round rs.2 :=
      zip_map_self_fst (List.map E6round) o rs hrs
    rw [Bool.and_eq_true]
    constructor
    · rw [h1, List.length_map]
      exact beq_self_eq_true _
    · rw [List.all_eq_true]
      intro ab hab
      rw [h1] at hab
      have h2 : ab.1 = E6round ab.2 := zip_map_self_fst E6round rs.2 ab hab
      rw [close6B, h2]
      exact decide_eq_true (E6round_err ab.2)

/-- C9: writing a spectra file and parsing its body back (splitting each
non-`#` line on whitespace and reading the fields as floats) recovers exactly
the wavelength column followed by one luminosity-density column per input
simulation, each value being the `%.6E`-rounded original; every recovered
value agrees with the original to within half an ulp in the sixth significant
digit (relative error at most `1/(2*10^6)`). -/
theorem C9_spectra_roundtrip (s0 : Simulation) (rest : List Simulation)
    (h : simsWellFormed (s0 :: rest) = true) :
    parseBody (spectra_write_lines (s0 :: rest)) =
      (List.range s0.wavelength.length).map (fun i =>
        E6round (s0.wavelength.getD i 0) ::
        (s0 :: rest).map (fun s => E6round (s.luminosity_density_lambda.getD i 0))) ∧
    closeTableB (parseBody (spectra_write_lines (s0 :: rest)))
      (spectra_output_table (s0 :: rest)) = true := by
  have hrows : ∀ row ∈ spectra_output_table (s0 :: rest), row ≠ [] := by
    intro row hrow
    rw [show spectra_output_table (s0 :: rest) =
      List.zipWith List.cons s0.wavelength
        (colsToRows ((s0 :: rest).map (·.luminosity_density_lambda))) from rfl]
      at hrow
    exact zipWith_cons_ne_nil _ _ row hrow
  have hmain : parseBody (spectra_write_lines (s0 :: rest)) =
      (spectra_output_table (s0 :: rest)).map (List.map E6round) :=
    parseBody_base_write .spectra _ _ hrows rfl
  refine ⟨hmain.trans (spectra_table_rows s0 rest h), ?_⟩
  rw [hmain]
  exact closeTableB_map (spectra_output_table (s0 :: rest))

/-- C9 witness: one simulation with wavelength `[1, 2]` and luminosity
densities `[5, 1/3]`. -/
theorem C9_witness :
    parseBody (spectra_write_lines
      [Simulation.mk 1 [0, 1] [5, 6] [7, 8] [1, 2] [5, 1/3]]) =
      (List.range ([1, 2] : List ℚ).length).map (fun i =>
        E6round (([1, 2] : List ℚ).getD i 0) ::
        [Simulation.mk 1 [0, 1] [5, 6] [7, 8] [1, 2] [5, 1/3]].map
          (fun s => E6round (s.luminosity_density_lambda.getD i 0))) ∧
    closeTableB
      (parseBody (spectra_write_lines
        [Simulation.mk 1 [0, 1] [5, 6] [7, 8] [1, 2] [5, 1/3]]))
      (spectra_output_table
        [Simulation.mk 1 [0, 1] [5, 6] [7, 8] [1, 2] [5, 1/3]]) = true :=
  C9_spectra_roundtrip (Simulation.mk 1 [0, 1] [5, 6] [7, 8] [1, 2] [5, 1/3]) []
    (by decide)
